import Mathlib

/-!
Verification development for the Merfolk 3D-AST pipeline: a shallow embedding
of the line-oriented parser (mermaid-parser), the graph builder with its four
layout algorithms (ast-builder), the graph/node/connection model and the
face generator (models/node, models/graph), and the external validator
(generators/3d-generator).

Modelling conventions, used throughout:
* JavaScript numbers are modelled as exact rationals (`ℚ`).  Every concrete
  computation appearing in a theorem below is exact in IEEE-754 doubles as
  well, or is compared only for (in)equality that rounding cannot affect.
* `Math.sqrt` is modelled by `ratSqrt`, a Newton iteration that is exact on
  squares of rationals (the only values the theorems below evaluate it on)
  and a floor approximation otherwise.
* `Math.cos`/`Math.sin` are modelled by truncated Taylor series `cosQ`/`sinQ`
  (exact at 0, the only argument any theorem below evaluates them at; all
  other occurrences are treated opaquely).  `Math.PI` is the rational value
  `piQ` of the double-precision constant.
* Strings are modelled as `List Char` (`Str`), JavaScript `Map`s and plain
  objects as insertion-ordered association lists where `set` replaces the
  value of an existing key in place (`mapSet`).
* Thrown JavaScript exceptions are modelled with `Except`; for
  `Graph.addConnection` the error also carries the graph state at the time
  of the throw, so that "the graph is unchanged on error" is expressible.
* Fields that no claim mentions (colors, opacity, wireframe, labels on built
  connections, bounding boxes, waypoints, graph ids) are omitted from the
  embedded records; the operations on the embedded fields follow the source
  statement by statement.
-/

namespace AST3D

/-- Strings of the modelled program, as character lists. -/
abbrev Str := List Char

/-- The double quote character. -/
def dq : Char := Char.ofNat 34

/-- The single quote character. -/
def sq : Char := Char.ofNat 39

/-- The opening curly brace character. -/
def obr : Char := Char.ofNat 123

/-- The closing curly brace character. -/
def cbr : Char := Char.ofNat 125

/-- Quote characters, the class `['"]` of the source regexes. -/
def isQuote (c : Char) : Bool := c = dq || c = sq

/-- The character class `[A-Za-z0-9_]` of the source regexes. -/
def isAlnumU (c : Char) : Bool := c.isAlpha || c.isDigit || c = '_'

/-- The whitespace class `\s`, restricted to the ASCII whitespace that can
occur in the inputs considered here. -/
def isSpaceChar (c : Char) : Bool :=
  c = ' ' || c = Char.ofNat 9 || c = Char.ofNat 13 || c = Char.ofNat 10 ||
  c = Char.ofNat 11 || c = Char.ofNat 12

/-- `String.prototype.trim`. -/
def trimStr (l : Str) : Str :=
  ((l.dropWhile isSpaceChar).reverse.dropWhile isSpaceChar).reverse

/-- `value.replace(/['"]/g, '')`: delete every quote character. -/
def stripQuotes (l : Str) : Str := l.filter (fun c => !(isQuote c))

/-- `String.prototype.toLowerCase`, ASCII. -/
def lowerStr (l : Str) : Str := l.map Char.toLower

/-- `String.prototype.split(sep)` on a single separator character:
every separator splits, empty segments are kept. -/
def splitChar (sep : Char) : Str → List Str
  | [] => [[]]
  | c :: rest =>
    match splitChar sep rest with
    | [] => [[]]
    | h :: t => if c = sep then [] :: h :: t else (c :: h) :: t

/-- `String.prototype.includes(sub)`: some suffix has `sub` as a prefix. -/
def containsSub (sub : Str) : Str → Bool
  | [] => sub.isEmpty
  | c :: rest => sub.isPrefixOf (c :: rest) || containsSub sub rest

/-- `String.prototype.startsWith`. -/
def startsWithStr (pre l : Str) : Bool := pre.isPrefixOf l

/-- Insertion-ordered association-list update with JavaScript `Map.set` /
object-assignment semantics: an existing key keeps its position and gets the
new value, a new key is appended. -/
def mapSet {α β : Type} [DecidableEq α] (m : List (α × β)) (k : α) (v : β) :
    List (α × β) :=
  match m with
  | [] => [(k, v)]
  | (k', v') :: rest =>
    if k' = k then (k, v) :: rest else (k', v') :: mapSet rest k v

/-- Association-list lookup (`Map.get` / property access). -/
def mapGet {α β : Type} [DecidableEq α] (m : List (α × β)) (k : α) :
    Option β :=
  match m with
  | [] => none
  | (k', v') :: rest => if k' = k then some v' else mapGet rest k

/-- Fuel-bounded Newton iteration for the natural square root. -/
def sqrtIter (n : Nat) : Nat → Nat → Nat
  | 0, guess => guess
  | fuel + 1, guess =>
    let next := (guess + n / guess) / 2
    if next < guess then sqrtIter n fuel next else guess

/-- Floor of the natural square root, with fuel `n` (ample: the guess strictly
decreases every continuing step). -/
def natSqrtM (n : Nat) : Nat := if n ≤ 1 then n else sqrtIter n n (n / 2)

/-- Models `Math.sqrt` on the rationals: exact whenever the argument is the
square of a rational (every argument the theorems below evaluate it on),
a floor approximation otherwise; nonpositive arguments give 0 (the source
only applies it to sums of squares). -/
def ratSqrt (q : ℚ) : ℚ :=
  if q ≤ 0 then 0 else (natSqrtM (q.num.toNat * q.den) : ℚ) / (q.den : ℚ)

/-- Models `Math.ceil(Math.sqrt n)` for natural `n`. -/
def natCeilSqrt (n : Nat) : Nat :=
  let s := natSqrtM n
  if s * s = n then s else s + 1

/-- `Math.max` on two (non-`NaN`) numbers. -/
def jsMax (a b : ℚ) : ℚ := if a < b then b else a

/-- The double-precision value of `Math.PI`, as an exact rational. -/
def piQ : ℚ := (884279719003555 : ℚ) / 281474976710656

/-- Models `Math.cos` by a truncated Taylor series; exact at 0, the only
argument any theorem below evaluates it at. -/
def cosQ (x : ℚ) : ℚ := 1 - x ^ 2 / 2 + x ^ 4 / 24 - x ^ 6 / 720

/-- Models `Math.sin` by a truncated Taylor series; exact at 0, the only
argument any theorem below evaluates it at. -/
def sinQ (x : ℚ) : ℚ := x - x ^ 3 / 6 + x ^ 5 / 120

/-! ## Data model (types/ast.ts, types/geometry.ts, mermaid-parser interfaces) -/

/-- `NodeType` (types/ast.ts). -/
inductive NodeType
  | func | comp | datapath | module | cls | iface | var | cst
deriving DecidableEq, Repr

/-- `GeometryType` (types/geometry.ts). -/
inductive GeometryType
  | cube | dodecahedron | plane
deriving DecidableEq, Repr

/-- `ConnectionType` (types/ast.ts). -/
inductive ConnectionType
  | dataFlow | controlFlow | inheritance | composition | dependency
  | association
deriving DecidableEq, Repr

/-- A dynamically-typed JavaScript property value as stored into a node's
property record: a string, a number, or a (flat numeric) array. -/
inductive PropValue
  | str (s : Str)
  | num (q : ℚ)
  | arr (l : List ℚ)
deriving DecidableEq, Repr

/-- JavaScript truthiness of a `PropValue` (`''` and `0` are falsy). -/
def jsTruthy : PropValue → Bool
  | .str s => !s.isEmpty
  | .num q => q ≠ 0
  | .arr _ => true

/-- `ParsedNode` (mermaid-parser). -/
structure ParsedNode where
  id : Str
  type : NodeType
  name : Str
  geometry : GeometryType
  description : Option PropValue
  properties : List (Str × PropValue)
deriving DecidableEq, Repr

/-- One endpoint of a parsed connection. -/
structure EndpointRef where
  nodeId : Str
  faceId : Option Str
deriving DecidableEq, Repr

/-- `ParsedConnection` (mermaid-parser). -/
structure ParsedConnection where
  id : Str
  type : ConnectionType
  source : EndpointRef
  target : EndpointRef
  label : Option Str
deriving DecidableEq, Repr

/-- `ParsedGraph` (mermaid-parser). -/
structure ParsedGraph where
  title : Option Str
  description : Option Str
  nodes : List ParsedNode
  connections : List ParsedConnection
  metadata : List (Str × Str)
deriving DecidableEq, Repr

/-! ## Regex fragments of the parser, as explicit matchers

The source matches lines against anchored regexes.  Each regex is embedded
as a matcher over `Str`.  Greedy character-class repetition `X+` followed by
a literal outside the class is maximal munch; the single place the source
patterns can backtrack (`\s*([^C]+)C` when everything before `C` is
whitespace) is reproduced explicitly in `matchSpacedUntil`. -/

namespace Merfolk

/-- Greedy `X+` for a character class: the maximal nonempty prefix. -/
def matchClass1 (p : Char → Bool) (l : Str) : Option (Str × Str) :=
  let t := l.takeWhile p
  if t.isEmpty then none else some (t, l.dropWhile p)

/-- A literal fragment of a regex. -/
def matchLit (lit : Str) (l : Str) : Option Str :=
  if lit.isPrefixOf l then some (l.drop lit.length) else none

/-- The capture of `\s*([^C]+)` applied to the full non-`C` run: strip the
greedily-consumed leading whitespace, giving back the final whitespace
character when the run is all whitespace (the one backtracking step the
source regexes can take). -/
def spacedCapture (body : Str) : Str :=
  let name := body.dropWhile isSpaceChar
  if name.isEmpty then body.drop (body.length - 1) else name

/-- `\s*([^C]+)` followed by the (excluded) terminator `C`: the maximal
nonempty run of non-`C` characters, captured via `spacedCapture`.
Returns the capture and the rest beginning at the terminator. -/
def matchSpacedUntil (stop : Char) (l : Str) : Option (Str × Str) :=
  let body := l.takeWhile (fun c => c ≠ stop)
  let rest := l.dropWhile (fun c => c ≠ stop)
  if body.isEmpty then none
  else some (spacedCapture body, rest)

/-- One node-declaration regex
`/^([A-Za-z0-9_]+)OPEN([^:]+):\s*([^C]+)C…/` where `OPEN` is the opening
delimiter, `C` the closing character and `closeRest` the remainder of the
closing delimiter.  Returns `(id, typeStr, name)`. -/
def matchNodeCore (openD : Str) (closeC : Char) (closeRest : Str) (l : Str) :
    Option (Str × Str × Str) :=
  (matchClass1 isAlnumU l).bind fun idr =>
  (matchLit openD idr.2).bind fun r2 =>
  (matchClass1 (fun c => c ≠ ':') r2).bind fun tyr =>
  (matchLit [':'] tyr.2).bind fun r4 =>
  (matchSpacedUntil closeC r4).bind fun nmr =>
  (matchLit (closeC :: closeRest) nmr.2).map fun _ =>
  (idr.1, tyr.1, nmr.1)

/-- The five node patterns of `parseNodeDefinition`, tried in source order:
square, curly, double-parenthesis, angle, double-square. -/
def tryNodePatterns (l : Str) : Option (Str × Str × Str) :=
  (matchNodeCore ['['] ']' [] l) <|>
  (matchNodeCore [obr] cbr [] l) <|>
  (matchNodeCore ['(', '('] ')' [')'] l) <|>
  (matchNodeCore ['<'] '>' [] l) <|>
  (matchNodeCore ['[', '['] ']' [']'] l)

/-- `isNodeDefinition`: `/^[A-Za-z0-9_]+[\[\{\(<]/`. -/
def isNodeDefinition (l : Str) : Bool :=
  match matchClass1 isAlnumU l with
  | none => false
  | some (_, rest) =>
    match rest with
    | [] => false
    | c :: _ => c = '[' || c = obr || c = '(' || c = '<'

/-- `isConnectionDefinition`: the line contains one of the arrow literals. -/
def isConnectionDefinition (l : Str) : Bool :=
  containsSub ['-', '-', '>'] l || containsSub ['-', '-', '-'] l ||
  containsSub ['-', '.', '-', '>'] l || containsSub ['=', '='] l

/-- `parseNodeType`: case-insensitive keyword table with `component`
fallback. -/
def parseNodeType (typeStr : Str) : NodeType :=
  let t := trimStr (lowerStr typeStr)
  if t = "function".toList ∨ t = "func".toList then .func
  else if t = "component".toList ∨ t = "comp".toList then .comp
  else if t = "datapath".toList ∨ t = "data".toList then .datapath
  else if t = "module".toList ∨ t = "mod".toList then .module
  else if t = "class".toList then .cls
  else if t = "interface".toList ∨ t = "iface".toList then .iface
  else if t = "variable".toList ∨ t = "var".toList then .var
  else if t = "constant".toList ∨ t = "const".toList then .cst
  else .comp

/-- `parseGeometry`: scans the whole line for bracket characters, in the
fixed order square → curly → angle, with cube default. -/
def parseGeometry (l : Str) : GeometryType :=
  if containsSub ['['] l && containsSub [']'] l then .cube
  else if containsSub [obr] l && containsSub [cbr] l then .dodecahedron
  else if containsSub ['<'] l && containsSub ['>'] l then .plane
  else .cube

/-- `parseConnectionType`: arrow token to connection category. -/
def parseConnectionType (arrow : Str) : ConnectionType :=
  if arrow = ['-', '-', '>'] then .dataFlow
  else if arrow = ['-', '.', '-', '>'] then .controlFlow
  else if arrow = ['-', '-', '-'] then .association
  else if arrow = ['=', '='] then .inheritance
  else .association

/-- The arrow alternation `(-->|---|-.->|==)`, tried in source order. -/
def matchArrow (l : Str) : Option (Str × Str) :=
  match matchLit ['-', '-', '>'] l with
  | some r => some (['-', '-', '>'], r)
  | none =>
  match matchLit ['-', '-', '-'] l with
  | some r => some (['-', '-', '-'], r)
  | none =>
  match matchLit ['-', '.', '-', '>'] l with
  | some r => some (['-', '.', '-', '>'], r)
  | none =>
  match matchLit ['=', '='] l with
  | some r => some (['=', '='], r)
  | none => none

/-- The optional face suffix `(?:@([A-Za-z0-9_]+))?`. -/
def matchOptFace (l : Str) : Option Str × Str :=
  match l with
  | c :: rest =>
    if c = '@' then
      match matchClass1 isAlnumU rest with
      | some (f, r) => (some f, r)
      | none => (none, c :: rest)
    else (none, c :: rest)
  | [] => (none, [])

/-- A single quote-class character `['"]`. -/
def matchQuote (l : Str) : Option Str :=
  match l with
  | c :: r => if isQuote c then some r else none
  | [] => none

/-- The captures common to both connection patterns. -/
structure ConnCaptures where
  src : Str
  sface : Option Str
  arrow : Str
  tgt : Str
  tface : Option Str
  label : Option Str
deriving DecidableEq, Repr

/-- The Mermaid-style pattern
`/^(id)(?:@(id))?\s*(arrows)\s*\|\s*['"]([^'"]+)['"]\s*\|\s*(id)(?:@(id))?/`
(pipe-delimited inline label). -/
def matchPipePattern (l : Str) : Option ConnCaptures :=
  (matchClass1 isAlnumU l).bind fun srcr =>
  let sf := matchOptFace srcr.2
  let r3 := sf.2.dropWhile isSpaceChar
  (matchArrow r3).bind fun arr =>
  let r5 := arr.2.dropWhile isSpaceChar
  (matchLit ['|'] r5).bind fun r6 =>
  let r7 := r6.dropWhile isSpaceChar
  (matchQuote r7).bind fun r8 =>
  (matchClass1 (fun c => !(isQuote c)) r8).bind fun lablr =>
  (matchQuote lablr.2).bind fun r10 =>
  let r11 := r10.dropWhile isSpaceChar
  (matchLit ['|'] r11).bind fun r12 =>
  let r13 := r12.dropWhile isSpaceChar
  (matchClass1 isAlnumU r13).map fun tgtr =>
  let tf := matchOptFace tgtr.2
  ⟨srcr.1, sf.1, arr.1, tgtr.1, tf.1, some lablr.1⟩

/-- The original pattern
`/^(id)(?:@(id))?\s*(arrows)\s*(id)(?:@(id))?\s*(?::\s*['"]([^'"]+)['"])?/`
(optional trailing colon label; failure of the optional group yields an
absent label). -/
def matchColonPattern (l : Str) : Option ConnCaptures :=
  (matchClass1 isAlnumU l).bind fun srcr =>
  let sf := matchOptFace srcr.2
  let r3 := sf.2.dropWhile isSpaceChar
  (matchArrow r3).bind fun arr =>
  let r5 := arr.2.dropWhile isSpaceChar
  (matchClass1 isAlnumU r5).map fun tgtr =>
  let tf := matchOptFace tgtr.2
  let r8 := tf.2.dropWhile isSpaceChar
  let lab :=
    (matchLit [':'] r8).bind fun r9 =>
    let r10 := r9.dropWhile isSpaceChar
    (matchQuote r10).bind fun r11 =>
    (matchClass1 (fun c => !(isQuote c)) r11).bind fun lablr =>
    (matchQuote lablr.2).map fun _ => lablr.1
  ⟨srcr.1, sf.1, arr.1, tgtr.1, tf.1, lab⟩

/-- `parseConnectionDefinition`: the two patterns are tried in source
order, pipe style first; `ctr` is the connection id counter. -/
def parseConnectionDefinition (l : Str) (ctr : Nat) :
    Option ParsedConnection :=
  match (matchPipePattern l) <|> (matchColonPattern l) with
  | none => none
  | some cap =>
    some
      { id := "conn_".toList ++ (toString ctr).toList
        type := parseConnectionType cap.arrow
        source := ⟨cap.src, cap.sface⟩
        target := ⟨cap.tgt, cap.tface⟩
        label := cap.label }

/-- The inline property-block search `/\s*\{(.+)\}\s*$/`: succeeds exactly
when, after trailing whitespace is removed, the line ends in a closing
brace and at least one character separates it from the line's first
opening brace; the capture is everything between that first opening brace
and the final closing brace. -/
def inlineProps (l : Str) : Option Str :=
  let r := (l.reverse.dropWhile isSpaceChar).reverse
  let rest := r.dropWhile (fun c => c ≠ obr)
  match rest with
  | [] => none
  | _ :: body =>
    if 2 ≤ body.length ∧ body.getLast? = some cbr then
      some (body.take (body.length - 1))
    else none

/-- `parseProperties` (single-line property string): split on commas, then
each pair on colons, keeping the first two segments; values are
quote-stripped strings. -/
def parseProperties (propertiesStr : Str) : List (Str × PropValue) :=
  let pairs := (splitChar ',' propertiesStr).map trimStr
  pairs.foldl
    (fun acc pair =>
      match (splitChar ':' pair).map trimStr with
      | key :: value :: _ =>
        if !key.isEmpty ∧ !value.isEmpty then
          mapSet acc key (.str (stripQuotes value))
        else acc
      | _ => acc)
    []

/-- `Number(s)` produces a non-`NaN` result: the empty string (value 0) or
a decimal numeral with optional sign.  (Hexadecimal, exponent and
`Infinity` forms are not modelled; no input in this development uses
them.) -/
def jsIsNumeric (s : Str) : Bool :=
  if s.isEmpty then true
  else
    let t := match s with
      | '-' :: r => r
      | '+' :: r => r
      | r => r
    !t.isEmpty && t.all (fun c => c.isDigit || c = '.') &&
      (t.filter (fun c => c = '.')).length ≤ 1 &&
      t.any Char.isDigit

/-- Parse a (modelled) decimal numeral into a rational; `none` on the forms
`jsIsNumeric` rejects. -/
def readDecimal (s : Str) : Option ℚ :=
  if !jsIsNumeric s ∨ s.isEmpty then none
  else
    let (neg, t) : Bool × Str := match s with
      | '-' :: r => (true, r)
      | '+' :: r => (false, r)
      | r => (false, r)
    let ip := t.takeWhile (fun c => c ≠ '.')
    let fp := (t.dropWhile (fun c => c ≠ '.')).drop 1
    let iv : ℚ := ip.foldl (fun a c => a * 10 + (c.toNat - 48 : ℕ)) 0
    let fv : ℚ :=
      (fp.foldl (fun a c => a * 10 + (c.toNat - 48 : ℕ)) 0) /
        (10 ^ fp.length : ℚ)
    some (if neg then -(iv + fv) else iv + fv)

/-- Models `JSON.parse` restricted to flat arrays of decimal numerals (the
only arrays the property grammar produces after quote-stripping); anything
else fails, matching the source's catch-and-keep-string behaviour. -/
def jsonNumArray (s : Str) : Option (List ℚ) :=
  match s with
  | '[' :: rest =>
    match rest.getLast? with
    | some c =>
      if c = ']' then
        let inner := trimStr (rest.take (rest.length - 1))
        if inner.isEmpty then some []
        else
          let parts := (splitChar ',' inner).map trimStr
          if parts.all (fun p => jsIsNumeric p ∧ !p.isEmpty) then
            some (parts.filterMap readDecimal)
          else none
      else none
    | none => none
  | _ => none

/-- The value coercion of `parseMultiLineProperties` for one `key: value`
line.  The source first replaces the string by `Number(value)` when that
is not `NaN`, and then unconditionally calls `parsedValue.startsWith('[')`
— which on a number throws `TypeError: parsedValue.startsWith is not a
function`; the thrown error is the `Except.error` case here. -/
def coerceValue (value : Str) : Except String PropValue :=
  let parsedValue := stripQuotes value
  if jsIsNumeric parsedValue then
    .error "TypeError: parsedValue.startsWith is not a function"
  else if parsedValue.head? = some '[' ∧ parsedValue.getLast? = some ']' then
    match jsonNumArray parsedValue with
    | some a => .ok (.arr a)
    | none => .ok (.str parsedValue)
  else .ok (.str parsedValue)

/-- The scanning loop of `parseMultiLineProperties`, beginning at the first
property line; returns the property record and the cursor (left on the
closing brace, or at the end of input when none is found).  `fuel` bounds
the loop; callers pass at least `lines.length`, which the `+1`-per-step
cursor makes sufficient. -/
def multiLineLoop (lines : List Str) :
    Nat → Nat → List (Str × PropValue) →
    Except String (List (Str × PropValue) × Nat)
  | 0, j, props => .ok (props, j)
  | fuel + 1, j, props =>
    if j < lines.length then
      let line := trimStr ((lines.get? j).getD [])
      if line = [cbr] then .ok (props, j)
      else if containsSub [':'] line then
        match splitChar ':' line with
        | key :: valueParts =>
          let value := trimStr (List.intercalate [':'] valueParts)
          if !key.isEmpty ∧ !value.isEmpty then
            (coerceValue value).bind fun pv =>
              multiLineLoop lines fuel (j + 1) (mapSet props (trimStr key) pv)
          else multiLineLoop lines fuel (j + 1) props
        | [] => multiLineLoop lines fuel (j + 1) props
      else multiLineLoop lines fuel (j + 1) props
    else .ok (props, j)

/-- `parseMultiLineProperties`: if the line after the cursor is exactly an
opening brace, consume `key: value` lines up to the closing brace. -/
def parseMultiLineProperties (lines : List Str) (i : Nat) :
    Except String (List (Str × PropValue) × Nat) :=
  match lines.get? (i + 1) with
  | some l =>
    if trimStr l = [obr] then multiLineLoop lines lines.length (i + 2) []
    else .ok ([], i)
  | none => .ok ([], i)

/-- `parseNodeDefinition` (the variant with inline and multi-line property
blocks): try the five delimiter patterns in order; on a match, take inline
properties from the same line if present, otherwise look ahead for a
multi-line block.  Returns the parsed node (if any) and the new cursor. -/
def parseNodeDefinition (lines : List Str) (i : Nat) :
    Except String (Option ParsedNode × Nat) :=
  let line := (lines.get? i).getD []
  match tryNodePatterns line with
  | none => .ok (none, i)
  | some cap =>
    let props :=
      match inlineProps line with
      | some pstr => Except.ok (parseProperties pstr, i)
      | none => parseMultiLineProperties lines i
    props.map fun pr =>
      (some
        { id := cap.1
          type := parseNodeType cap.2.1
          name := trimStr cap.2.2
          geometry := parseGeometry line
          description := mapGet pr.1 "description".toList
          properties := pr.1 }, pr.2)

/-- The graph-declaration regex `/^(graph3d|ast3d)\s+(.+)/`; returns the
raw title capture. -/
def graphDeclTitle (line : Str) : Option Str :=
  let tryKw := fun (kw : Str) =>
    (matchLit kw line).bind fun r =>
      let sp := r.takeWhile isSpaceChar
      let rest := r.dropWhile isSpaceChar
      if sp.isEmpty ∨ rest.isEmpty then none else some rest
  (tryKw "graph3d".toList) <|> (tryKw "ast3d".toList)

/-- Parser accumulator: graph-level fields, parsed statements, and the
connection id counter.  (The node id counter of the source is never read:
the grammar always supplies an id token.) -/
structure PState where
  title : Option Str
  descr : Option Str
  nodes : List ParsedNode
  conns : List ParsedConnection
  connCtr : Nat
  metadata : List (Str × Str)
deriving DecidableEq, Repr

/-- The statement loop of `parse`, dispatching each line in source order:
comments, graph declaration, title, description, node definition (which
may advance the cursor past a multi-line property block), connection
definition, metadata, silent skip. -/
def parseLoop (lines : List Str) :
    Nat → Nat → PState → Except String PState
  | 0, _, st => .ok st
  | fuel + 1, i, st =>
    if i < lines.length then
      let line := (lines.get? i).getD []
      if startsWithStr "%%".toList line || startsWithStr "//".toList line then
        parseLoop lines fuel (i + 1) st
      else if startsWithStr "graph3d".toList line ||
          startsWithStr "ast3d".toList line then
        let st' :=
          match graphDeclTitle line with
          | some t => { st with title := some (stripQuotes t) }
          | none => st
        parseLoop lines fuel (i + 1) st'
      else if startsWithStr "title:".toList line then
        parseLoop lines fuel (i + 1)
          { st with title := some (stripQuotes (trimStr (line.drop 6))) }
      else if startsWithStr "description:".toList line then
        parseLoop lines fuel (i + 1)
          { st with descr := some (stripQuotes (trimStr (line.drop 12))) }
      else if isNodeDefinition line then
        (parseNodeDefinition lines i).bind fun r =>
          let st' :=
            match r.1 with
            | some n => { st with nodes := st.nodes ++ [n] }
            | none => st
          parseLoop lines fuel (r.2 + 1) st'
      else if isConnectionDefinition line then
        match parseConnectionDefinition line st.connCtr with
        | some c =>
          parseLoop lines fuel (i + 1)
            { st with conns := st.conns ++ [c], connCtr := st.connCtr + 1 }
        | none => parseLoop lines fuel (i + 1) st
      else if containsSub [':'] line &&
          !containsSub ['-', '-', '>'] line &&
          !containsSub ['-', '-', '-'] line then
        match splitChar ':' line with
        | k :: v :: _ =>
          parseLoop lines fuel (i + 1)
            { st with
              metadata :=
                mapSet st.metadata (trimStr k) (stripQuotes (trimStr v)) }
        | _ => parseLoop lines fuel (i + 1) st
      else parseLoop lines fuel (i + 1) st
    else .ok st

/-- `MermaidParser.parse`: split into trimmed nonempty lines and run the
statement loop. -/
def parse (input : Str) : Except String ParsedGraph :=
  let lines := ((splitChar (Char.ofNat 10) input).map trimStr).filter
    (fun l => !l.isEmpty)
  (parseLoop lines (lines.length + 1) 0 ⟨none, none, [], [], 0, []⟩).map
    fun st =>
      ⟨st.title, st.descr, st.nodes, st.conns, st.metadata⟩

end Merfolk

/-! ## Geometry and node model (models/node.ts, types/geometry.ts) -/

/-- A 3-vector of (exact-rational) coordinates. -/
structure Vec3 where
  x : ℚ
  y : ℚ
  z : ℚ
deriving DecidableEq, Repr

/-- The origin / zero vector. -/
def vzero : Vec3 := ⟨0, 0, 0⟩

/-- `Transform3D`. -/
structure Transform3D where
  position : Vec3
  rotation : Vec3
  scale : Vec3
deriving DecidableEq, Repr

/-- `Face`. -/
structure Face where
  id : Str
  normal : Vec3
  center : Vec3
  vertices : List Vec3
deriving DecidableEq, Repr

/-- `generateCubeFaces`: the source builds the front and back faces and
then only leaves the comment "Add top, bottom, left, right faces...
(Similar pattern for other faces)" — the returned list has exactly these
two faces. -/
def generateCubeFaces (position scale : Vec3) : List Face :=
  let hx := scale.x / 2
  let hy := scale.y / 2
  let hz := scale.z / 2
  [ { id := "front".toList
      normal := ⟨0, 0, 1⟩
      center := ⟨position.x, position.y, position.z + hz⟩
      vertices :=
        [⟨position.x - hx, position.y - hy, position.z + hz⟩,
         ⟨position.x + hx, position.y - hy, position.z + hz⟩,
         ⟨position.x + hx, position.y + hy, position.z + hz⟩,
         ⟨position.x - hx, position.y + hy, position.z + hz⟩] },
    { id := "back".toList
      normal := ⟨0, 0, -1⟩
      center := ⟨position.x, position.y, position.z - hz⟩
      vertices :=
        [⟨position.x + hx, position.y - hy, position.z - hz⟩,
         ⟨position.x - hx, position.y - hy, position.z - hz⟩,
         ⟨position.x - hx, position.y + hy, position.z - hz⟩,
         ⟨position.x + hx, position.y + hy, position.z - hz⟩] } ]

/-- `generatePlaneFaces`: a single front face centred on the node. -/
def generatePlaneFaces (position scale : Vec3) : List Face :=
  [ { id := "front".toList
      normal := ⟨0, 0, 1⟩
      center := position
      vertices :=
        [⟨position.x - scale.x / 2, position.y - scale.y / 2, position.z⟩,
         ⟨position.x + scale.x / 2, position.y - scale.y / 2, position.z⟩,
         ⟨position.x + scale.x / 2, position.y + scale.y / 2, position.z⟩,
         ⟨position.x - scale.x / 2, position.y + scale.y / 2, position.z⟩] } ]

/-- `generateDodecahedronFaces`: twelve faces `face_0` … `face_11` evenly
around a circle of radius `max(scale)/2` in the xy-plane. -/
def generateDodecahedronFaces (position scale : Vec3) : List Face :=
  let radius := jsMax (jsMax scale.x scale.y) scale.z / 2
  (List.range 12).map fun i =>
    let angle := (i : ℚ) * piQ * 2 / 12
    { id := "face_".toList ++ (toString i).toList
      normal := ⟨cosQ angle, sinQ angle, 0⟩
      center :=
        ⟨position.x + cosQ angle * radius, position.y + sinQ angle * radius,
          position.z⟩
      vertices := [] }

/-- `generateFaces`: dispatch on the geometry class (the `default` arm of
the source `switch` maps to cube faces and is unreachable for this
three-class enum). -/
def generateFaces (geometry : GeometryType) (t : Transform3D) : List Face :=
  match geometry with
  | .cube => generateCubeFaces t.position t.scale
  | .plane => generatePlaneFaces t.position t.scale
  | .dodecahedron => generateDodecahedronFaces t.position t.scale

/-- A graph node.  The visual fields (color, opacity, wireframe), the
metadata copy, the description and the derived bounding box of the source
are omitted: no claim concerns them and they influence none of the
embedded fields. -/
structure Node where
  id : Str
  type : NodeType
  name : Str
  geometry : GeometryType
  transform : Transform3D
  faces : List Face
  children : List Str
  parents : List Str
deriving DecidableEq, Repr

/-- The `Node` constructor: origin position, identity rotation, unit
scale, geometry-appropriate faces, empty adjacency. -/
def Node.create (id : Str) (type : NodeType) (name : Str)
    (geometry : GeometryType) : Node :=
  let t : Transform3D := ⟨vzero, vzero, ⟨1, 1, 1⟩⟩
  ⟨id, type, name, geometry, t, generateFaces geometry t, [], []⟩

/-- `Node.setPosition`: update the position and regenerate the faces (the
bounding-box recomputation of the source touches only omitted fields). -/
def Node.setPosition (n : Node) (p : Vec3) : Node :=
  let t := { n.transform with position := p }
  { n with transform := t, faces := generateFaces n.geometry t }

/-- `Node.setScale`: update the scale and regenerate the faces. -/
def Node.setScale (n : Node) (s : Vec3) : Node :=
  let t := { n.transform with scale := s }
  { n with transform := t, faces := generateFaces n.geometry t }

/-- `Node.addChild`: append if not already present. -/
def Node.addChild (n : Node) (childId : Str) : Node :=
  if n.children.contains childId then n
  else { n with children := n.children ++ [childId] }

/-- `Node.addParent`: append if not already present. -/
def Node.addParent (n : Node) (parentId : Str) : Node :=
  if n.parents.contains parentId then n
  else { n with parents := n.parents ++ [parentId] }

/-- `Node.getFace`: first face with the given id. -/
def Node.getFace (n : Node) (faceId : Str) : Option Face :=
  n.faces.find? (fun f => f.id = faceId)

/-! ## Connection and graph model (models/connection.ts, models/graph.ts) -/

/-- `ConnectionPoint`: an endpoint with an optional face and an anchor
resolved by the builder. -/
structure ConnPoint where
  nodeId : Str
  faceId : Option Str
  anchor : Option Vec3
deriving DecidableEq, Repr

/-- A built connection.  Visual properties (including the label), metadata
and waypoints are omitted: no claim concerns them. -/
structure Connection where
  id : Str
  type : ConnectionType
  source : ConnPoint
  target : ConnPoint
deriving DecidableEq, Repr

/-- The built graph: insertion-ordered node and connection collections
keyed by id (the `Map`s of the source). -/
structure Graph where
  name : Str
  description : Option Str
  nodes : List Node
  connections : List Connection
  metadata : List (Str × Str)
deriving DecidableEq, Repr

/-- `Map.set` on the node collection: replace in place or append. -/
def nodeListSet : List Node → Node → List Node
  | [], n => [n]
  | m :: rest, n => if m.id = n.id then n :: rest else m :: nodeListSet rest n

/-- `Map.set` on the connection collection. -/
def connListSet : List Connection → Connection → List Connection
  | [], c => [c]
  | d :: rest, c => if d.id = c.id then c :: rest else d :: connListSet rest c

/-- `Graph.getNode`. -/
def Graph.getNode (g : Graph) (nodeId : Str) : Option Node :=
  g.nodes.find? (fun n => n.id = nodeId)

/-- `Graph.addNode`. -/
def Graph.addNode (g : Graph) (n : Node) : Graph :=
  { g with nodes := nodeListSet g.nodes n }

/-- `Graph.getRootNodes`: nodes with empty parent list. -/
def Graph.getRootNodes (g : Graph) : List Node :=
  g.nodes.filter (fun n => n.parents.isEmpty)

/-- Apply an update to the node with the given id (the source mutates the
shared node object; the map collection keys are unique, so updating every
listed node with that id is the same operation). -/
def Graph.updateNode (g : Graph) (nodeId : Str) (f : Node → Node) : Graph :=
  { g with nodes := g.nodes.map (fun n => if n.id = nodeId then f n else n) }

/-- `Graph.addConnection`: reject the connection when either endpoint is
missing — the thrown `Error` is modelled as the `Except.error` case and
carries the graph state at the throw, which is the unmodified input graph
because the existence check precedes every mutation.  Otherwise update the
endpoints' adjacency lists, give each endpoint its best-effort anchor
(face centre when the face resolves, current node position when no face
was named and no anchor is set), and register the connection. -/
def Graph.addConnection (g : Graph) (c : Connection) :
    Except (String × Graph) Graph :=
  match g.getNode c.source.nodeId, g.getNode c.target.nodeId with
  | some sourceNode, some targetNode =>
    let g1 := g.updateNode c.source.nodeId (fun n => n.addChild c.target.nodeId)
    let g2 := g1.updateNode c.target.nodeId (fun n => n.addParent c.source.nodeId)
    let src :=
      match c.source.faceId with
      | some fid =>
        match sourceNode.getFace fid with
        | some f => { c.source with anchor := some f.center }
        | none => c.source
      | none =>
        if c.source.anchor.isNone then
          { c.source with anchor := some sourceNode.transform.position }
        else c.source
    let tgt :=
      match c.target.faceId with
      | some fid =>
        match targetNode.getFace fid with
        | some f => { c.target with anchor := some f.center }
        | none => c.target
      | none =>
        if c.target.anchor.isNone then
          { c.target with anchor := some targetNode.transform.position }
        else c.target
    .ok { g2 with
          connections :=
            connListSet g2.connections { c with source := src, target := tgt } }
  | _, _ =>
    .error ("Cannot create connection: source or target node not found", g)

/-! ## Builder (parser/ast-builder.ts) -/

/-- The layout algorithm selected by configuration. -/
inductive LayoutAlgorithm
  | hierarchical | forceDirected | circular | grid
deriving DecidableEq, Repr

/-- The layout-relevant configuration (`config.layout`); the default is
hierarchical with node spacing 2.0. -/
structure Config where
  algorithm : LayoutAlgorithm
  nodeSpacing : ℚ
deriving DecidableEq, Repr

/-- `DEFAULT_CONFIG.layout`. -/
def defaultConfig : Config := ⟨.hierarchical, 2⟩

/-- `parseScale`: a string parses as a scalar or comma-separated triple
(`parseFloat` of a non-numeral is `NaN`, modelled as 0 — no input in this
development takes that branch); a non-string value has no `split` method
and the call throws. -/
def parseScale (v : PropValue) : Except String Vec3 :=
  match v with
  | .str s =>
    let parts := (splitChar ',' s).map
      (fun p => (Merfolk.readDecimal (trimStr p)).getD 0)
    if parts.length = 1 then
      .ok ⟨parts.headD 0, parts.headD 0, parts.headD 0⟩
    else if parts.length = 3 then
      .ok ⟨(parts.get? 0).getD 0, (parts.get? 1).getD 0, (parts.get? 2).getD 0⟩
    else .ok ⟨1, 1, 1⟩
  | _ => .error "TypeError: scaleStr.split is not a function"

/-- `parsePosition`: an array of length at least 3 gives its first three
entries, a comma-separated string its first three numerals (`|| 0`
replacing a `NaN`), anything else the origin. -/
def parsePosition (v : PropValue) : Vec3 :=
  match v with
  | .arr l =>
    if 3 ≤ l.length then
      ⟨(l.get? 0).getD 0, (l.get? 1).getD 0, (l.get? 2).getD 0⟩
    else vzero
  | .str s =>
    let parts := (splitChar ',' s).map (fun p => Merfolk.readDecimal (trimStr p))
    if 3 ≤ parts.length then
      ⟨((parts.get? 0).getD none).getD 0, ((parts.get? 1).getD none).getD 0,
        ((parts.get? 2).getD none).getD 0⟩
    else vzero
  | .num _ => vzero

/-- `createNode`: instantiate the node and apply the property overrides in
source order — `color` and `opacity` touch only the omitted visual fields;
`scale` and `position` update the transform (and with it the faces).
Property presence is JavaScript truthiness of the stored value. -/
def createNode (pn : ParsedNode) : Except String Node :=
  let node := Node.create pn.id pn.type pn.name pn.geometry
  (match mapGet pn.properties "scale".toList with
   | some v =>
     if jsTruthy v then (parseScale v).map node.setScale
     else .ok node
   | none => .ok node).map fun (node1 : Node) =>
  match mapGet pn.properties "position".toList with
  | some v =>
    if jsTruthy v then node1.setPosition (parsePosition v) else node1
  | none => node1

/-- `createConnection`: resolve both endpoints against the node map and
silently drop the connection (`none`) when either is missing; anchors are
left unset. -/
def createConnection (pc : ParsedConnection)
    (nodeMap : List (Str × Node)) : Option Connection :=
  match mapGet nodeMap pc.source.nodeId, mapGet nodeMap pc.target.nodeId with
  | some _, some _ =>
    some
      { id := pc.id
        type := pc.type
        source := ⟨pc.source.nodeId, pc.source.faceId, none⟩
        target := ⟨pc.target.nodeId, pc.target.faceId, none⟩ }
  | _, _ => none

/-- The ids of the nodes that already carry a non-origin position when
layout starts — the pinned nodes excluded from automatic placement. -/
def pinnedIds (g : Graph) : List Str :=
  (g.nodes.filter (fun n => !decide (n.transform.position = vzero))).map
    (fun n => n.id)

/-- Set one node's position. -/
def updateNodePos (g : Graph) (nodeId : Str) (p : Vec3) : Graph :=
  g.updateNode nodeId (fun n => n.setPosition p)

/-- Apply a list of position assignments in order (the sequence of
`setPosition` calls a layout pass performs). -/
def applyPositions (g : Graph) (asg : List (Str × Vec3)) : Graph :=
  asg.foldl (fun g a => updateNodePos g a.1 a.2) g

/-- Append a node id to the list stored at a layer key, inserting the key
at the end on first use (`Map` insertion order). -/
def pushLayer : List (Nat × List Str) → Nat → Str → List (Nat × List Str)
  | [], layer, nid => [(layer, [nid])]
  | (k, ids) :: rest, layer, nid =>
    if k = layer then (k, ids ++ [nid]) :: rest
    else (k, ids) :: pushLayer rest layer nid

/-- `assignToLayers`: depth-first from the given node; an already-visited
node returns immediately (keeping its first assigned layer), otherwise the
node is pushed at the current layer and its resolvable children are
visited at `layer + 1`.  State is `(layers, visited)`; `fuel` bounds the
recursion depth (callers pass more than the node count, which suffices
because every continuing call grows `visited`). -/
def assignToLayers (g : Graph) :
    Nat → Node → Nat → (List (Nat × List Str) × List Str) →
    (List (Nat × List Str) × List Str)
  | 0, _, _, st => st
  | fuel + 1, node, layer, st =>
    if st.2.contains node.id then st
    else
      let st1 := (pushLayer st.1 layer node.id, st.2 ++ [node.id])
      node.children.foldl
        (fun st c =>
          match g.getNode c with
          | some child => assignToLayers g fuel child (layer + 1) st
          | none => st)
        st1

/-- The layer map of `applyHierarchicalLayout`: a depth-first pass from
every root, with a fresh visited set per root (as in the source). -/
def hierarchicalLayers (g : Graph) : List (Nat × List Str) :=
  g.getRootNodes.foldl
    (fun ls r => (assignToLayers g (g.nodes.length + 1) r 0 (ls, [])).1) []

/-- `applyHierarchicalLayout`: per layer (in insertion order), place the
un-pinned nodes of the layer evenly spaced (effective spacing
`max(spacing, 30)`), centred about zero, at height `layer * spacing * 2`. -/
def applyHierarchicalLayout (g : Graph) (pinned : List Str) (cfg : Config) :
    Graph :=
  let spacing := cfg.nodeSpacing
  (hierarchicalLayers g).foldl
    (fun g li =>
      let y := (li.1 : ℚ) * spacing * 2
      let toPos := li.2.filter (fun i => !pinned.contains i)
      if toPos.isEmpty then g
      else
        let eff := jsMax spacing 30
        let totalWidth := ((toPos.length : ℚ) - 1) * eff
        let startX := -totalWidth / 2
        applyPositions g
          (toPos.enum.map fun p => (p.2, ⟨startX + (p.1 : ℚ) * eff, y, 0⟩)))
    g

/-- `applyCircularLayout`: place the un-pinned nodes evenly around a circle
of radius `max(spacing·n/(2π), spacing·2)` in the y = 0 plane. -/
def applyCircularLayout (g : Graph) (pinned : List Str) (cfg : Config) :
    Graph :=
  let ids := (g.nodes.filter (fun n => !pinned.contains n.id)).map
    (fun n => n.id)
  let spacing := jsMax cfg.nodeSpacing 30
  if ids.isEmpty then g
  else
    let n := ids.length
    let radius := jsMax (spacing * n / (piQ * 2)) (spacing * 2)
    applyPositions g
      (ids.enum.map fun p =>
        let angle := (p.1 : ℚ) / n * piQ * 2
        (p.2, ⟨cosQ angle * radius, 0, sinQ angle * radius⟩))

/-- `applyGridLayout`: place the un-pinned nodes row-major in a square grid
of side `ceil(sqrt n)`, cell size `max(spacing, 30)`, offset by half the
side. -/
def applyGridLayout (g : Graph) (pinned : List Str) (cfg : Config) : Graph :=
  let ids := (g.nodes.filter (fun n => !pinned.contains n.id)).map
    (fun n => n.id)
  let spacing := jsMax cfg.nodeSpacing 30
  if ids.isEmpty then g
  else
    let gridSize := natCeilSqrt ids.length
    applyPositions g
      (ids.enum.map fun p =>
        let row := p.1 / gridSize
        let col := p.1 % gridSize
        (p.2,
          ⟨((col : ℚ) - (gridSize : ℚ) / 2) * spacing, 0,
            ((row : ℚ) - (gridSize : ℚ) / 2) * spacing⟩))

/-- `applyRepulsiveForce`: push the two nodes apart along their separation
with magnitude `strength / distance²` (distance 0 is replaced by 0.1). -/
def applyRepulsiveForce (g : Graph) (id1 id2 : Str) (strength : ℚ) : Graph :=
  match g.getNode id1, g.getNode id2 with
  | some n1, some n2 =>
    let p1 := n1.transform.position
    let p2 := n2.transform.position
    let dx := p1.x - p2.x
    let dy := p1.y - p2.y
    let dz := p1.z - p2.z
    let dist0 := ratSqrt (dx * dx + dy * dy + dz * dz)
    let distance := if dist0 = 0 then (1 : ℚ) / 10 else dist0
    let force := strength / (distance * distance)
    let fx := dx / distance * force
    let fy := dy / distance * force
    let fz := dz / distance * force
    let gA := updateNodePos g id1 ⟨p1.x + fx, p1.y + fy, p1.z + fz⟩
    updateNodePos gA id2 ⟨p2.x - fx, p2.y - fy, p2.z - fz⟩
  | _, _ => g

/-- `applyAttractiveForce`: pull the two nodes together with magnitude
`strength · distance · 0.1` — note that BOTH endpoints move. -/
def applyAttractiveForce (g : Graph) (id1 id2 : Str) (strength : ℚ) : Graph :=
  match g.getNode id1, g.getNode id2 with
  | some n1, some n2 =>
    let p1 := n1.transform.position
    let p2 := n2.transform.position
    let dx := p2.x - p1.x
    let dy := p2.y - p1.y
    let dz := p2.z - p1.z
    let dist0 := ratSqrt (dx * dx + dy * dy + dz * dz)
    let distance := if dist0 = 0 then (1 : ℚ) / 10 else dist0
    let force := strength * distance
    let fx := dx / distance * force * ((1 : ℚ) / 10)
    let fy := dy / distance * force * ((1 : ℚ) / 10)
    let fz := dz / distance * force * ((1 : ℚ) / 10)
    let gA := updateNodePos g id1 ⟨p1.x + fx, p1.y + fy, p1.z + fz⟩
    updateNodePos gA id2 ⟨p2.x - fx, p2.y - fy, p2.z - fz⟩
  | _, _ => g

/-- The ordered pairs `(j, k)`, `j < k < n`, of the repulsion double
loop. -/
def pairsLex (n : Nat) : List (Nat × Nat) :=
  (List.range n).flatMap fun j => ((List.range n).drop (j + 1)).map fun k => (j, k)

/-- One iteration of the force simulation: pairwise repulsion among the
un-pinned nodes, attraction along every connection with at least one
un-pinned endpoint (moving both endpoints), then damping of the un-pinned
nodes by 0.9. -/
def forceIteration (g0 : Graph) (ids : List Str) (pinned : List Str) :
    Graph :=
  let gR := (pairsLex ids.length).foldl
    (fun g jk =>
      applyRepulsiveForce g ((ids.get? jk.1).getD []) ((ids.get? jk.2).getD [])
        1)
    g0
  let gA := gR.connections.foldl
    (fun g c =>
      match g.getNode c.source.nodeId, g.getNode c.target.nodeId with
      | some s, some t =>
        if !pinned.contains s.id || !pinned.contains t.id then
          applyAttractiveForce g s.id t.id ((1 : ℚ) / 10)
        else g
      | _, _ => g)
    gR
  ids.foldl
    (fun g i =>
      match g.getNode i with
      | some node =>
        let p := node.transform.position
        updateNodePos g i
          ⟨p.x * ((9 : ℚ) / 10), p.y * ((9 : ℚ) / 10), p.z * ((9 : ℚ) / 10)⟩
      | none => g)
    gA

/-- `applyForceDirectedLayout`: seed the un-pinned nodes on the circular
layout's circle, then run exactly 50 force iterations. -/
def applyForceDirectedLayout (g : Graph) (pinned : List Str) (cfg : Config) :
    Graph :=
  let ids := (g.nodes.filter (fun n => !pinned.contains n.id)).map
    (fun n => n.id)
  let spacing := jsMax cfg.nodeSpacing 30
  if ids.isEmpty then g
  else
    let n := ids.length
    let radius := jsMax (spacing * n / (piQ * 2)) (spacing * 2)
    let g1 := applyPositions g
      (ids.enum.map fun p =>
        let angle := (p.1 : ℚ) / n * piQ * 2
        (p.2, ⟨cosQ angle * radius, 0, sinQ angle * radius⟩))
    (List.range 50).foldl (fun g _ => forceIteration g ids pinned) g1

/-- `applyLayout`: compute the pinned set and dispatch on the configured
algorithm (the `default` arm of the source `switch` repeats the
hierarchical case and is unreachable for this four-value enum). -/
def applyLayout (g : Graph) (cfg : Config) : Graph :=
  let pinned := pinnedIds g
  match cfg.algorithm with
  | .hierarchical => applyHierarchicalLayout g pinned cfg
  | .forceDirected => applyForceDirectedLayout g pinned cfg
  | .circular => applyCircularLayout g pinned cfg
  | .grid => applyGridLayout g pinned cfg

/-- `updateConnectionAnchors`: for every connection whose two endpoints
resolve, re-anchor each endpoint at the named face's centre (when the face
resolves) or at the node position (no face named). -/
def updateConnectionAnchors (g : Graph) : Graph :=
  { g with
    connections :=
      g.connections.map fun c =>
        match g.getNode c.source.nodeId, g.getNode c.target.nodeId with
        | some sourceNode, some targetNode =>
          let src :=
            match c.source.faceId with
            | some fid =>
              match sourceNode.getFace fid with
              | some f => { c.source with anchor := some f.center }
              | none => c.source
            | none =>
              { c.source with anchor := some sourceNode.transform.position }
          let tgt :=
            match c.target.faceId with
            | some fid =>
              match targetNode.getFace fid with
              | some f => { c.target with anchor := some f.center }
              | none => c.target
            | none =>
              { c.target with anchor := some targetNode.transform.position }
          { c with source := src, target := tgt }
        | _, _ => c }

/-- `ASTBuilder.build`: seed the graph from the parsed header, create the
nodes (tracking the node map), create and register the resolvable
connections, apply the configured layout, and recompute every connection's
anchors.  A thrown error propagates (`Except.error` with the error
message). -/
def build (pg : ParsedGraph) (cfg : Config) : Except String Graph :=
  let g0 : Graph :=
    { name := pg.title.getD "Untitled Graph".toList
      description := pg.description
      nodes := []
      connections := []
      metadata := pg.metadata }
  (pg.nodes.foldlM
      (fun (acc : List (Str × Node) × Graph) pn =>
        (createNode pn).map fun node =>
          (mapSet acc.1 pn.id node, acc.2.addNode node))
      ([], g0)).bind fun nmg =>
  (pg.connections.foldlM
      (fun (g : Graph) pc =>
        match createConnection pc nmg.1 with
        | some c =>
          match g.addConnection c with
          | .ok g2 => Except.ok g2
          | .error e => Except.error e.1
        | none => Except.ok g)
      nmg.2).map fun g3 =>
  updateConnectionAnchors (applyLayout g3 cfg)

/-- `AST3DGenerator.validate`: parse (catching a thrown error as a single
message), then report duplicate node ids and connections naming unknown
endpoints. -/
def validate (input : Str) : Bool × List Str :=
  match Merfolk.parse input with
  | .error e => (false, [e.toList])
  | .ok parsed =>
    let dup := parsed.nodes.foldl
      (fun (acc : List Str × List Str) n =>
        if acc.1.contains n.id then
          (acc.1, acc.2 ++ ["Duplicate node ID: ".toList ++ n.id])
        else (acc.1 ++ [n.id], acc.2))
      ([], [])
    let errors := parsed.connections.foldl
      (fun (errs : List Str) c =>
        let e1 :=
          if !dup.1.contains c.source.nodeId then
            errs ++
              ["Connection references unknown source node: ".toList ++
                c.source.nodeId]
          else errs
        if !dup.1.contains c.target.nodeId then
          e1 ++
            ["Connection references unknown target node: ".toList ++
              c.target.nodeId]
        else e1)
      dup.2
    (errors.isEmpty, errors)

/-! ## Statement-support definitions and concrete inputs -/

/-- The node positions of a graph, in collection order. -/
def positionsOf (g : Graph) : List Vec3 :=
  g.nodes.map (fun n => n.transform.position)

/-- Componentwise sum of a list of vectors (used to speak about the
centroid of a layout). -/
def vsum (l : List Vec3) : Vec3 :=
  l.foldl (fun a v => ⟨a.x + v.x, a.y + v.y, a.z + v.z⟩) vzero

/-- The position of one node of a graph. -/
def nodePosition (g : Graph) (i : Str) : Option Vec3 :=
  (g.getNode i).map (fun n => n.transform.position)

/-- The position a full parse-and-build run leaves one node at. -/
def buildNodePos (pg : ParsedGraph) (cfg : Config) (i : Str) : Option Vec3 :=
  match build pg cfg with
  | .ok g => nodePosition g i
  | .error _ => none

/-- The geometry class `parseNodeDefinition` extracts from a line. -/
def parsedGeometry (lines : List Str) (i : Nat) : Option GeometryType :=
  match Merfolk.parseNodeDefinition lines i with
  | .ok (some pn, _) => some pn.geometry
  | _ => none

/-- Node and connection counts of a successful build. -/
def builtCounts (pg : ParsedGraph) (cfg : Config) : Option (Nat × Nat) :=
  match build pg cfg with
  | .ok g => some (g.nodes.length, g.connections.length)
  | .error _ => none

/-- Node and connection counts of a successful parse. -/
def parsedCounts (input : Str) : Option (Nat × Nat) :=
  match Merfolk.parse input with
  | .ok pg => some (pg.nodes.length, pg.connections.length)
  | .error _ => none

/-- Node and connection counts of a full parse-and-build run. -/
def parseBuildCounts (input : Str) (cfg : Config) : Option (Nat × Nat) :=
  match Merfolk.parse input with
  | .ok pg => builtCounts pg cfg
  | .error _ => none

/-- The connection id the parser mints from a counter value. -/
def connId (ctr : Nat) : Str := "conn_".toList ++ (toString ctr).toList

/-- An optional `@face` suffix on a connection endpoint token. -/
def faceSuffix : Option Str → Str
  | none => []
  | some f => '@' :: f

/-- The inline-pipe labelled connection line `S[@f] ARROW|"L"| T[@g]`. -/
def pipeLine (src : Str) (sf : Option Str) (arrow : Str) (lbl : Str)
    (tgt : Str) (tf : Option Str) : Str :=
  src ++ (faceSuffix sf ++ (' ' :: (arrow ++ ('|' :: (dq ::
    (lbl ++ (dq :: ('|' :: (' ' :: (tgt ++ faceSuffix tf))))))))))

/-- The trailing-colon labelled connection line `S[@f] ARROW T[@g] : "L"`. -/
def colonLine (src : Str) (sf : Option Str) (arrow : Str) (lbl : Str)
    (tgt : Str) (tf : Option Str) : Str :=
  src ++ (faceSuffix sf ++ (' ' :: (arrow ++ (' ' :: (tgt ++
    (faceSuffix tf ++ (' ' :: (':' :: (' ' :: (dq :: (lbl ++ [dq])))))))))))

/-- A node-declaration line `id OPEN ty: nm CLOSE`. -/
def nodeLine (id A ty nm B : Str) : Str :=
  id ++ (A ++ (ty ++ ':' :: ' ' :: (nm ++ B)))

/-- The square-bracket node form `id[ty: nm]`. -/
def sqLine (id ty nm : Str) : Str := nodeLine id ['['] ty nm [']']

/-- The curly-brace node form. -/
def curlyLine (id ty nm : Str) : Str := nodeLine id [obr] ty nm [cbr]

/-- The double-parenthesis node form `id((ty: nm))`. -/
def parenLine (id ty nm : Str) : Str := nodeLine id ['(', '('] ty nm [')', ')']

/-- The angle-bracket node form `id<ty: nm>`. -/
def angleLine (id ty nm : Str) : Str := nodeLine id ['<'] ty nm ['>']

/-- The double-square node form `id[[ty: nm]]`. -/
def dsqLine (id ty nm : Str) : Str := nodeLine id ['[', '['] ty nm [']', ']']

/-- Characters that play no delimiter role in any node pattern nor in
`parseGeometry`'s bracket scan. -/
def plainChar (c : Char) : Prop :=
  c ≠ '[' ∧ c ≠ ']' ∧ c ≠ obr ∧ c ≠ cbr ∧ c ≠ '<' ∧ c ≠ '>' ∧ c ≠ '(' ∧
    c ≠ ')'

instance (c : Char) : Decidable (plainChar c) := by
  unfold plainChar; infer_instance

/-- Membership of a node id at a layer key of a layer map. -/
def layerMem (ls : List (Nat × List Str)) (k : Nat) (i : Str) : Prop :=
  ∃ e ∈ ls, e.1 = k ∧ i ∈ e.2

instance (ls : List (Nat × List Str)) (k : Nat) (i : Str) :
    Decidable (layerMem ls k i) := by
  unfold layerMem; infer_instance

/-- The layer-justification invariant of the amended hierarchical-layer
claim: every id assigned to a layer `k + 1` was first reached from some
node assigned to layer `k` that lists it as a child. -/
def layersJustified (g : Graph) (ls : List (Nat × List Str)) : Prop :=
  ∀ k i, layerMem ls (k + 1) i →
    ∃ p pn, layerMem ls k p ∧ g.getNode p = some pn ∧ i ∈ pn.children

/-- The input of the dangling-connection scenario:
`A[Function: f]` then `A --> Z` with `Z` undeclared. -/
def exC7input : Str := "A[Function: f]\nA --> Z".toList

/-- The error the validator reports for the undeclared `Z`. -/
def exC7error : Str := "Connection references unknown target node: Z".toList

/-- The multi-line property block carrying a purely numeric value. -/
def exC9input : Str :=
  "A[Function: f]\n\x7b\nopacity: 5\n\x7d".toList

/-- A curly-delimited node declaration whose display name contains square
brackets. -/
def exC2line : Str := "B\x7bComponent: arr[0]\x7d".toList

/-- The parsed graph of the pinned-node force-directed scenario: node `A`
with the explicit position property `"1,0,0"`, plain node `B`, and the
connection `A --> B`. -/
def exC1parsed : ParsedGraph :=
  { title := none
    description := none
    nodes :=
      [ { id := "A".toList, type := .func, name := "f".toList,
          geometry := .cube, description := none,
          properties := [("position".toList, .str "1,0,0".toList)] },
        { id := "B".toList, type := .func, name := "g".toList,
          geometry := .cube, description := none, properties := [] } ]
    connections :=
      [ { id := connId 0, type := .dataFlow,
          source := ⟨"A".toList, none⟩, target := ⟨"B".toList, none⟩,
          label := none } ]
    metadata := [] }

/-- Four plain cube nodes at the origin (the 4-node grid scenario). -/
def exGrid4 : Graph :=
  { name := "g".toList, description := none
    nodes :=
      [ Node.create "A".toList .func "a".toList .cube,
        Node.create "B".toList .func "b".toList .cube,
        Node.create "C".toList .func "c".toList .cube,
        Node.create "D".toList .func "d".toList .cube ]
    connections := [], metadata := [] }

/-- The graph `addConnection` builds from `A --> C`, `A --> B`, `B --> C`:
`A`'s children are `[C, B]` in that insertion order, `B`'s child is `C`,
and `C` has parents `[A, B]`.  With children visited in list order, the
hierarchical depth-first pass reaches `C` before `B`. -/
def exDiamond : Graph :=
  { name := "g".toList, description := none
    nodes :=
      [ { Node.create "A".toList .func "a".toList .cube with
          children := ["C".toList, "B".toList] },
        { Node.create "B".toList .func "b".toList .cube with
          children := ["C".toList], parents := ["A".toList] },
        { Node.create "C".toList .func "c".toList .cube with
          parents := ["A".toList, "B".toList] } ]
    connections := [], metadata := [] }

/-- The anchor-consistency scenario: two box nodes and the face-anchored
connection `A@front --> B`. -/
def exC6input : Str := "A[Function: f]\nB[Function: g]\nA@front --> B".toList

/-- An empty graph (for exercising `addConnection`'s guard directly). -/
def exEmptyGraph : Graph :=
  { name := "g".toList, description := none, nodes := [], connections := []
    metadata := [] }

/-- A connection whose endpoints name no node of `exEmptyGraph`. -/
def exConnXY : Connection :=
  { id := connId 0, type := .dataFlow
    source := ⟨"X".toList, none, none⟩
    target := ⟨"Y".toList, none, none⟩ }

/-- The endpoint-anchor consistency predicate of the anchor claim: the
endpoint's node resolves, and the anchor is the node's position when no
face is named, and the named face's exact centre when the face resolves
(the source leaves the anchor untouched when the face name does not
resolve, so that case is unconstrained). -/
def anchorOk (g : Graph) (e : ConnPoint) : Bool :=
  match g.getNode e.nodeId with
  | none => false
  | some n =>
    match e.faceId with
    | none => decide (e.anchor = some n.transform.position)
    | some fid =>
      match n.getFace fid with
      | some f => decide (e.anchor = some f.center)
      | none => true

/-- A two-node graph with `A` pinned at `(1, 0, 0)` and `B` at the
origin. -/
def exPinned : Graph :=
  { name := "g".toList, description := none
    nodes :=
      [ (Node.create "A".toList .func "a".toList .cube).setPosition ⟨1, 0, 0⟩,
        Node.create "B".toList .func "b".toList .cube ]
    connections := [], metadata := [] }

/-- The parse of the anchor scenario (the fallback is never taken). -/
def exC6pg : ParsedGraph :=
  match Merfolk.parse exC6input with
  | .ok pg => pg
  | .error _ => ⟨none, none, [], [], []⟩

/-- The graph the anchor scenario builds under the default
configuration. -/
def exC6graph : Graph :=
  match build exC6pg defaultConfig with
  | .ok g => g
  | .error _ => exEmptyGraph

/-- The graph the pinned-node scenario builds under the default
(hierarchical) configuration. -/
def exC1graph : Graph :=
  match build exC1parsed defaultConfig with
  | .ok g => g
  | .error _ => exEmptyGraph

/-- A parsed graph whose single node carries an array-valued `scale`
property — the one property shape that makes `createNode` throw. -/
def exScaleParsed : ParsedGraph :=
  { title := none, description := none
    nodes :=
      [ { id := "A".toList, type := .func, name := "f".toList,
          geometry := .cube, description := none,
          properties := [("scale".toList, .arr [1, 2, 3])] } ]
    connections := [], metadata := [] }

/-- The one connection of the anchor scenario's built graph (with a
placeholder default that is never taken). -/
def exC6conn : Connection :=
  exC6graph.connections.headD
    { id := [], type := .dataFlow, source := ⟨[], none, none⟩,
      target := ⟨[], none, none⟩ }

/-- The one connection of the pinned scenario's built graph (with a
placeholder default that is never taken). -/
def exC1conn : Connection :=
  exC1graph.connections.headD
    { id := [], type := .dataFlow, source := ⟨[], none, none⟩,
      target := ⟨[], none, none⟩ }

/-- The message `Graph.addConnection` throws for a missing endpoint. -/
def connNotFoundMsg : String :=
  "Cannot create connection: source or target node not found"

/-- The message a non-string `scale` property makes `createNode` throw. -/
def scaleSplitMsg : String := "TypeError: scaleStr.split is not a function"

/-! ## Generic fold and list lemmas -/

theorem foldl_preserve {α β : Type} {P : α → Prop} (f : α → β → α)
    (l : List β) (h : ∀ a b, b ∈ l → P a → P (f a b)) (a : α) (ha : P a) :
    P (l.foldl f a) := by
  induction l generalizing a with
  | nil => exact ha
  | cons x xs ih =>
    exact ih (fun a b hb => h a b (List.mem_cons_of_mem _ hb)) _
      (h a x (List.mem_cons_self _ _) ha)

theorem except_bind_ok {α : Type} (a : α) (k : α → Except String α) :
    (Except.ok a >>= k) = k a := rfl

theorem except_bind_error {α : Type} (e : String) (k : α → Except String α) :
    ((Except.error e : Except String α) >>= k) = .error e := rfl

theorem foldlM_ok_preserve {α β : Type} {P : α → Prop}
    (f : α → β → Except String α) (l : List β)
    (h : ∀ a b r, b ∈ l → P a → f a b = .ok r → P r) (a : α) (ha : P a)
    (r : α) (hr : l.foldlM f a = .ok r) : P r := by
  induction l generalizing a with
  | nil =>
    simp only [List.foldlM, pure, Except.pure] at hr
    cases hr; exact ha
  | cons x xs ih =>
    simp only [List.foldlM] at hr
    cases hfx : f a x with
    | error e => rw [hfx, except_bind_error] at hr; cases hr
    | ok a1 =>
      rw [hfx, except_bind_ok] at hr
      exact ih (fun a b r hb => h a b r (List.mem_cons_of_mem _ hb)) a1
        (h a x a1 (List.mem_cons_self _ _) ha hfx) hr

theorem foldlM_total {α β : Type} {P : α → Prop}
    (f : α → β → Except String α) (l : List β)
    (h : ∀ a b, b ∈ l → P a → ∃ r, f a b = .ok r ∧ P r) (a : α) (ha : P a) :
    ∃ r, l.foldlM f a = .ok r ∧ P r := by
  induction l generalizing a with
  | nil => exact ⟨a, rfl, ha⟩
  | cons x xs ih =>
    obtain ⟨a1, hfx, ha1⟩ := h a x (List.mem_cons_self _ _) ha
    obtain ⟨r, hr, hPr⟩ :=
      ih (fun a b hb => h a b (List.mem_cons_of_mem _ hb)) a1 ha1
    refine ⟨r, ?_, hPr⟩
    simp only [List.foldlM]
    rw [hfx, except_bind_ok]
    exact hr

theorem foldlM_error_source {α β : Type} (f : α → β → Except String α)
    (l : List β) (a : α) (e : String) (he : l.foldlM f a = .error e) :
    ∃ a' b, b ∈ l ∧ f a' b = .error e := by
  induction l generalizing a with
  | nil => simp only [List.foldlM, pure, Except.pure] at he; cases he
  | cons x xs ih =>
    simp only [List.foldlM] at he
    cases hfx : f a x with
    | error e1 =>
      rw [hfx, except_bind_error] at he
      cases he
      exact ⟨a, x, List.mem_cons_self _ _, hfx⟩
    | ok a1 =>
      rw [hfx, except_bind_ok] at he
      obtain ⟨a', b, hb, hfb⟩ := ih a1 he
      exact ⟨a', b, List.mem_cons_of_mem _ hb, hfb⟩

theorem takeWhile_append_all {p : Char → Bool} {xs ys : Str}
    (h : ∀ c ∈ xs, p c = true) :
    (xs ++ ys).takeWhile p = xs ++ ys.takeWhile p := by
  induction xs with
  | nil => simp
  | cons x xt ih =>
    simp only [List.cons_append, List.takeWhile_cons,
      h x (List.mem_cons_self _ _)]
    exact congrArg (x :: ·) (ih (fun c hc => h c (List.mem_cons_of_mem _ hc)))

theorem dropWhile_append_all {p : Char → Bool} {xs ys : Str}
    (h : ∀ c ∈ xs, p c = true) :
    (xs ++ ys).dropWhile p = ys.dropWhile p := by
  induction xs with
  | nil => simp
  | cons x xt ih =>
    simp only [List.cons_append, List.dropWhile_cons,
      h x (List.mem_cons_self _ _), if_true]
    exact ih (fun c hc => h c (List.mem_cons_of_mem _ hc))

theorem takeWhile_all {p : Char → Bool} {xs : Str}
    (h : ∀ c ∈ xs, p c = true) : xs.takeWhile p = xs := by
  have := @takeWhile_append_all p xs [] h
  simpa using this

theorem matchLit_self {lit rest : Str} : Merfolk.matchLit lit (lit ++ rest) = some rest := by
  unfold Merfolk.matchLit
  rw [if_pos]
  · simp
  · induction lit with
    | nil => simp [List.isPrefixOf]
    | cons c cs ih => simp only [List.cons_append, List.isPrefixOf, beq_self_eq_true, Bool.true_and]; exact ih

theorem matchLit_ne_head {c d : Char} {cs ds : Str} (h : c ≠ d) :
    Merfolk.matchLit (c :: cs) (d :: ds) = none := by
  unfold Merfolk.matchLit
  rw [if_neg]
  simp [List.isPrefixOf]
  intro hc
  exact absurd hc h

theorem containsSub_single {c : Char} {l : Str} :
    containsSub [c] l = true ↔ c ∈ l := by
  induction l with
  | nil => simp [containsSub]
  | cons x xs ih =>
    simp only [containsSub, Bool.or_eq_true, ih, List.mem_cons]
    constructor
    · rintro (h | h)
      · left
        have hcx : (c == x) = true := by simpa [List.isPrefixOf] using h
        exact eq_of_beq hcx
      · right; exact h
    · rintro (h | h)
      · left; subst h; simp [List.isPrefixOf]
      · right; exact h

theorem not_containsSub_single {c : Char} {l : Str} (h : c ∉ l) :
    containsSub [c] l = false := by
  cases hc : containsSub [c] l
  · rfl
  · exact absurd (containsSub_single.mp hc) h

/-! ## Matcher-specification lemmas -/

theorem matchClass1_spec {p : Char → Bool} {xs : Str} {y : Char} {ys : Str}
    (hxs : xs ≠ []) (hall : ∀ c ∈ xs, p c = true) (hy : p y = false) :
    Merfolk.matchClass1 p (xs ++ y :: ys) = some (xs, y :: ys) := by
  unfold Merfolk.matchClass1
  rw [takeWhile_append_all hall, dropWhile_append_all hall]
  simp [List.takeWhile_cons, List.dropWhile_cons, hy, hxs]

theorem matchClass1_all {p : Char → Bool} {xs : Str} (hxs : xs ≠ [])
    (hall : ∀ c ∈ xs, p c = true) :
    Merfolk.matchClass1 p xs = some (xs, []) := by
  unfold Merfolk.matchClass1
  rw [takeWhile_all hall]
  have : xs.dropWhile p = [] := by
    have := @dropWhile_append_all p xs [] hall
    simpa using this
  rw [this]
  simp [hxs]

theorem matchSpacedUntil_spec {stop : Char} {body rest : Str}
    (hb : body ≠ []) (hall : ∀ c ∈ body, c ≠ stop) :
    Merfolk.matchSpacedUntil stop (body ++ stop :: rest) =
      some (Merfolk.spacedCapture body, stop :: rest) := by
  unfold Merfolk.matchSpacedUntil
  have hallb : ∀ c ∈ body, (fun c => decide (c ≠ stop)) c = true := by
    intro c hc; simpa using hall c hc
  rw [takeWhile_append_all hallb, dropWhile_append_all hallb]
  simp [List.takeWhile_cons, List.dropWhile_cons, hb]

theorem matchOptFace_none {l : Str} (h : l.head? ≠ some '@') :
    Merfolk.matchOptFace l = (none, l) := by
  match l with
  | [] => rfl
  | c :: rest =>
    have hc : c ≠ '@' := fun hc => h (by rw [hc]; rfl)
    simp [Merfolk.matchOptFace, hc]

theorem matchOptFace_some {f : Str} {rest : Str} (hf : f ≠ [])
    (hfa : ∀ c ∈ f, isAlnumU c = true)
    (hrest : ∀ c, rest.head? = some c → isAlnumU c = false) :
    Merfolk.matchOptFace ('@' :: (f ++ rest)) = (some f, rest) := by
  cases rest with
  | nil =>
    rw [List.append_nil]
    simp [Merfolk.matchOptFace, matchClass1_all hf hfa]
  | cons y ys =>
    simp [Merfolk.matchOptFace, matchClass1_spec hf hfa (hrest y rfl)]

theorem matchQuote_dq {rest : Str} : Merfolk.matchQuote (dq :: rest) = some rest := by
  simp [Merfolk.matchQuote, isQuote]

theorem option_bind_some {α β : Type} (a : α) (f : α → Option β) :
    (Option.bind (some a) f) = f a := rfl

theorem matchLit_cons_append {c : Char} {cs rest : Str} :
    Merfolk.matchLit (c :: cs) (c :: (cs ++ rest)) = some rest :=
  matchLit_self

theorem matchLit_single {c : Char} {rest : Str} :
    Merfolk.matchLit [c] (c :: rest) = some rest :=
  @matchLit_self [c] rest

theorem matchSpacedUntil_sp {stop : Char} {b rest : Str}
    (hb : ∀ c ∈ b, c ≠ stop) (hsp : (' ' : Char) ≠ stop) :
    Merfolk.matchSpacedUntil stop (' ' :: (b ++ stop :: rest)) =
      some (Merfolk.spacedCapture (' ' :: b), stop :: rest) :=
  @matchSpacedUntil_spec stop (' ' :: b) rest (by simp)
    (by
      intro c hc
      rcases List.mem_cons.mp hc with h | h
      · rw [h]; exact hsp
      · exact hb c h)

theorem matchNodeCore_spec {closeC : Char} {closeRest : Str}
    {id ty nm tail : Str} {o : Char} {od : Str}
    (hoa : isAlnumU o = false)
    (hid : id ≠ []) (hida : ∀ c ∈ id, isAlnumU c = true)
    (hty : ty ≠ []) (htyc : ∀ c ∈ ty, c ≠ ':')
    (hnm : ∀ c ∈ nm, c ≠ closeC) (hsp : (' ' : Char) ≠ closeC) :
    Merfolk.matchNodeCore (o :: od) closeC closeRest
      (id ++ o :: (od ++ (ty ++ ':' :: ' ' ::
        (nm ++ closeC :: (closeRest ++ tail)))))
      = some (id, ty, Merfolk.spacedCapture (' ' :: nm)) := by
  have htyb : ∀ c ∈ ty, (fun c => decide (c ≠ ':')) c = true := by
    intro c hc; simpa using htyc c hc
  have hcolon : (fun c => decide (c ≠ ':')) ':' = false := by simp
  unfold Merfolk.matchNodeCore
  rw [matchClass1_spec hid hida hoa]
  simp only [option_bind_some]
  rw [matchLit_cons_append]
  simp only [option_bind_some]
  rw [matchClass1_spec hty htyb hcolon]
  simp only [option_bind_some]
  rw [matchLit_single]
  simp only [option_bind_some]
  rw [matchSpacedUntil_sp hnm hsp]
  simp only [option_bind_some]
  rw [matchLit_cons_append]
  rfl

theorem matchNodeCore_fail {closeC : Char} {closeRest : Str}
    {id : Str} {c : Char} {rest : Str} {o : Char} {od : Str}
    (hid : id ≠ []) (hida : ∀ c ∈ id, isAlnumU c = true)
    (hc : isAlnumU c = false) (hoc : o ≠ c) :
    Merfolk.matchNodeCore (o :: od) closeC closeRest (id ++ c :: rest) =
      none := by
  unfold Merfolk.matchNodeCore
  rw [matchClass1_spec hid hida hc]
  simp only [option_bind_some]
  rw [matchLit_ne_head hoc]
  rfl

theorem opt_orelse_none {α : Type} (b : Option α) :
    ((none : Option α) <|> b) = b := rfl

theorem opt_orelse_some {α : Type} (a : α) (b : Option α) :
    ((some a : Option α) <|> b) = some a := rfl

/-! ## Node-form lemmas for the delimiter-geometry claim -/

theorem mem_nodeLine {c : Char} {id A ty nm B : Str} :
    c ∈ nodeLine id A ty nm B ↔
      c ∈ id ∨ c ∈ A ∨ c ∈ ty ∨ c = ':' ∨ c = ' ' ∨ c ∈ nm ∨ c ∈ B := by
  simp only [nodeLine, List.mem_append, List.mem_cons]

theorem not_mem_nodeLine {k : Char} {id A ty nm B : Str}
    (hida : ∀ c ∈ id, isAlnumU c = true)
    (htyp : ∀ c ∈ ty, plainChar c) (hnmp : ∀ c ∈ nm, plainChar c)
    (hk : isAlnumU k = false) (hkp : ¬ plainChar k)
    (hA : k ∉ A) (hB : k ∉ B) (hkc : k ≠ ':') (hks : k ≠ ' ') :
    k ∉ nodeLine id A ty nm B := by
  rw [mem_nodeLine]
  rintro (h | h | h | h | h | h | h)
  · rw [hida k h] at hk; cases hk
  · exact hA h
  · exact hkp (htyp k h)
  · exact hkc h
  · exact hks h
  · exact hkp (hnmp k h)
  · exact hB h

theorem tryNodePatterns_sq {id ty nm : Str}
    (hid : id ≠ []) (hida : ∀ c ∈ id, isAlnumU c = true)
    (hty : ty ≠ []) (htyp : ∀ c ∈ ty, plainChar c ∧ c ≠ ':')
    (hnmp : ∀ c ∈ nm, plainChar c) :
    Merfolk.tryNodePatterns (sqLine id ty nm) =
      some (id, ty, Merfolk.spacedCapture (' ' :: nm)) := by
  have h1 : Merfolk.matchNodeCore ['['] ']' [] (sqLine id ty nm) =
      some (id, ty, Merfolk.spacedCapture (' ' :: nm)) := by
    have := @matchNodeCore_spec ']' [] id ty nm [] '[' [] (by decide) hid hida
      hty (fun c hc => (htyp c hc).2)
      (fun c hc => (hnmp c hc).2.1) (by decide)
    simpa [sqLine, nodeLine] using this
  unfold Merfolk.tryNodePatterns
  rw [h1, opt_orelse_some]

theorem tryNodePatterns_curly {id ty nm : Str}
    (hid : id ≠ []) (hida : ∀ c ∈ id, isAlnumU c = true)
    (hty : ty ≠ []) (htyp : ∀ c ∈ ty, plainChar c ∧ c ≠ ':')
    (hnmp : ∀ c ∈ nm, plainChar c) :
    Merfolk.tryNodePatterns (curlyLine id ty nm) =
      some (id, ty, Merfolk.spacedCapture (' ' :: nm)) := by
  have h1 : Merfolk.matchNodeCore ['['] ']' [] (curlyLine id ty nm) = none := by
    have := @matchNodeCore_fail ']' [] id obr
      (ty ++ ':' :: ' ' :: (nm ++ [cbr])) '[' [] hid hida (by decide)
      (by decide)
    simpa [curlyLine, nodeLine] using this
  have h2 : Merfolk.matchNodeCore [obr] cbr [] (curlyLine id ty nm) =
      some (id, ty, Merfolk.spacedCapture (' ' :: nm)) := by
    have := @matchNodeCore_spec cbr [] id ty nm [] obr [] (by decide) hid hida
      hty (fun c hc => (htyp c hc).2)
      (fun c hc => (hnmp c hc).2.2.2.1) (by decide)
    simpa [curlyLine, nodeLine] using this
  unfold Merfolk.tryNodePatterns
  rw [h1, opt_orelse_none, h2, opt_orelse_some]

theorem tryNodePatterns_paren {id ty nm : Str}
    (hid : id ≠ []) (hida : ∀ c ∈ id, isAlnumU c = true)
    (hty : ty ≠ []) (htyp : ∀ c ∈ ty, plainChar c ∧ c ≠ ':')
    (hnmp : ∀ c ∈ nm, plainChar c) :
    Merfolk.tryNodePatterns (parenLine id ty nm) =
      some (id, ty, Merfolk.spacedCapture (' ' :: nm)) := by
  have h1 : Merfolk.matchNodeCore ['['] ']' [] (parenLine id ty nm) = none := by
    have := @matchNodeCore_fail ']' [] id '('
      ('(' :: (ty ++ ':' :: ' ' :: (nm ++ [')', ')']))) '[' [] hid hida
      (by decide) (by decide)
    simpa [parenLine, nodeLine] using this
  have h2 : Merfolk.matchNodeCore [obr] cbr [] (parenLine id ty nm) = none := by
    have := @matchNodeCore_fail cbr [] id '('
      ('(' :: (ty ++ ':' :: ' ' :: (nm ++ [')', ')']))) obr [] hid hida
      (by decide) (by decide)
    simpa [parenLine, nodeLine] using this
  have h3 : Merfolk.matchNodeCore ['(', '('] ')' [')'] (parenLine id ty nm) =
      some (id, ty, Merfolk.spacedCapture (' ' :: nm)) := by
    have := @matchNodeCore_spec ')' [')'] id ty nm [] '(' ['('] (by decide)
      hid hida hty (fun c hc => (htyp c hc).2)
      (fun c hc => (hnmp c hc).2.2.2.2.2.2.2) (by decide)
    simpa [parenLine, nodeLine] using this
  unfold Merfolk.tryNodePatterns
  rw [h1, opt_orelse_none, h2, opt_orelse_none, h3, opt_orelse_some]

theorem tryNodePatterns_angle {id ty nm : Str}
    (hid : id ≠ []) (hida : ∀ c ∈ id, isAlnumU c = true)
    (hty : ty ≠ []) (htyp : ∀ c ∈ ty, plainChar c ∧ c ≠ ':')
    (hnmp : ∀ c ∈ nm, plainChar c) :
    Merfolk.tryNodePatterns (angleLine id ty nm) =
      some (id, ty, Merfolk.spacedCapture (' ' :: nm)) := by
  have h1 : Merfolk.matchNodeCore ['['] ']' [] (angleLine id ty nm) = none := by
    have := @matchNodeCore_fail ']' [] id '<'
      (ty ++ ':' :: ' ' :: (nm ++ ['>'])) '[' [] hid hida (by decide)
      (by decide)
    simpa [angleLine, nodeLine] using this
  have h2 : Merfolk.matchNodeCore [obr] cbr [] (angleLine id ty nm) = none := by
    have := @matchNodeCore_fail cbr [] id '<'
      (ty ++ ':' :: ' ' :: (nm ++ ['>'])) obr [] hid hida (by decide)
      (by decide)
    simpa [angleLine, nodeLine] using this
  have h3 : Merfolk.matchNodeCore ['(', '('] ')' [')'] (angleLine id ty nm) =
      none := by
    have := @matchNodeCore_fail ')' [')'] id '<'
      (ty ++ ':' :: ' ' :: (nm ++ ['>'])) '(' ['('] hid hida (by decide)
      (by decide)
    simpa [angleLine, nodeLine] using this
  have h4 : Merfolk.matchNodeCore ['<'] '>' [] (angleLine id ty nm) =
      some (id, ty, Merfolk.spacedCapture (' ' :: nm)) := by
    have := @matchNodeCore_spec '>' [] id ty nm [] '<' [] (by decide) hid hida
      hty (fun c hc => (htyp c hc).2)
      (fun c hc => (hnmp c hc).2.2.2.2.2.1) (by decide)
    simpa [angleLine, nodeLine] using this
  unfold Merfolk.tryNodePatterns
  rw [h1, opt_orelse_none, h2, opt_orelse_none, h3, opt_orelse_none, h4,
    opt_orelse_some]

theorem tryNodePatterns_dsq {id ty nm : Str}
    (hid : id ≠ []) (hida : ∀ c ∈ id, isAlnumU c = true)
    (hty : ty ≠ []) (htyp : ∀ c ∈ ty, plainChar c ∧ c ≠ ':')
    (hnmp : ∀ c ∈ nm, plainChar c) :
    Merfolk.tryNodePatterns (dsqLine id ty nm) =
      some (id, '[' :: ty, Merfolk.spacedCapture (' ' :: nm)) := by
  have h1 : Merfolk.matchNodeCore ['['] ']' [] (dsqLine id ty nm) =
      some (id, '[' :: ty, Merfolk.spacedCapture (' ' :: nm)) := by
    have := @matchNodeCore_spec ']' [] id ('[' :: ty) nm [']'] '[' []
      (by decide) hid hida (by simp)
      (by
        intro c hc
        rcases List.mem_cons.mp hc with h | h
        · rw [h]; decide
        · exact (htyp c h).2)
      (fun c hc => (hnmp c hc).2.1) (by decide)
    simpa [dsqLine, nodeLine] using this
  unfold Merfolk.tryNodePatterns
  rw [h1, opt_orelse_some]

theorem containsSub_true_of_mem {c : Char} {l : Str} (h : c ∈ l) :
    containsSub [c] l = true := containsSub_single.mpr h

theorem parseGeometry_has_sq {l : Str} (h1 : '[' ∈ l) (h2 : ']' ∈ l) :
    Merfolk.parseGeometry l = .cube := by
  unfold Merfolk.parseGeometry
  rw [containsSub_true_of_mem h1, containsSub_true_of_mem h2]
  rfl

theorem parseGeometry_curly_case {l : Str} (h0 : '[' ∉ l)
    (h1 : obr ∈ l) (h2 : cbr ∈ l) : Merfolk.parseGeometry l = .dodecahedron := by
  unfold Merfolk.parseGeometry
  rw [not_containsSub_single h0, containsSub_true_of_mem h1,
    containsSub_true_of_mem h2]
  rfl

theorem parseGeometry_angle_case {l : Str} (h0 : '[' ∉ l) (h1 : obr ∉ l)
    (h2 : '<' ∈ l) (h3 : '>' ∈ l) : Merfolk.parseGeometry l = .plane := by
  unfold Merfolk.parseGeometry
  rw [not_containsSub_single h0, not_containsSub_single h1,
    containsSub_true_of_mem h2, containsSub_true_of_mem h3]
  rfl

theorem parseGeometry_default_case {l : Str} (h0 : '[' ∉ l) (h1 : obr ∉ l)
    (h2 : '<' ∉ l) : Merfolk.parseGeometry l = .cube := by
  unfold Merfolk.parseGeometry
  rw [not_containsSub_single h0, not_containsSub_single h1,
    not_containsSub_single h2]
  rfl

theorem parsedGeometry_of_match {line : Str} {cap : Str × Str × Str}
    (h : Merfolk.tryNodePatterns line = some cap) :
    parsedGeometry [line] 0 = some (Merfolk.parseGeometry line) := by
  unfold parsedGeometry Merfolk.parseNodeDefinition
  simp only [List.get?, Option.getD]
  rw [h]
  cases hip : Merfolk.inlineProps line with
  | some pstr => simp [Except.map]
  | none => simp [Merfolk.parseMultiLineProperties, Except.map, List.get?]

/-! ## Connection-pattern lemmas for the label-style claim -/

theorem not_space_of_alnum {c : Char} (h : isAlnumU c = true) :
    isSpaceChar c = false := by
  cases hs : isSpaceChar c
  · rfl
  · exfalso
    simp only [isSpaceChar, Bool.or_eq_true, decide_eq_true_eq] at hs
    rcases hs with ((((h1 | h1) | h1) | h1) | h1) | h1 <;>
      (subst h1; exact absurd h (by decide))

theorem dropWhile_space_space {l : Str} :
    (' ' :: l).dropWhile isSpaceChar = l.dropWhile isSpaceChar := by
  rw [List.dropWhile_cons]
  simp [(by decide : isSpaceChar ' ' = true)]

theorem dropWhile_space_stop {c : Char} {l : Str}
    (h : isSpaceChar c = false) :
    (c :: l).dropWhile isSpaceChar = c :: l := by
  rw [List.dropWhile_cons]
  simp [h]

theorem dropSpace1 {c : Char} {l : Str} (h : isSpaceChar c = false) :
    (' ' :: (c :: l)).dropWhile isSpaceChar = c :: l := by
  rw [dropWhile_space_space, dropWhile_space_stop h]

theorem matchLit_cons_same {c : Char} {cs l : Str} :
    Merfolk.matchLit (c :: cs) (c :: l) = Merfolk.matchLit cs l := by
  unfold Merfolk.matchLit
  have hp : (c :: cs).isPrefixOf (c :: l) = cs.isPrefixOf l := by
    simp [List.isPrefixOf]
  rw [hp]
  by_cases h : cs.isPrefixOf l = true
  · rw [if_pos h, if_pos h]
    rfl
  · rw [if_neg h, if_neg h]

theorem matchLit_nil {l : Str} : Merfolk.matchLit [] l = some l := by
  unfold Merfolk.matchLit
  simp [List.isPrefixOf]

/-- The source arrow-token set. -/
theorem matchArrow_spec {arrow rest : Str}
    (h : arrow = "-->".toList ∨ arrow = "---".toList ∨
      arrow = "-.->".toList ∨ arrow = "==".toList) :
    Merfolk.matchArrow (arrow ++ rest) = some (arrow, rest) := by
  unfold Merfolk.matchArrow
  rcases h with h | h | h | h <;> subst h
  · rw [show ("-->".toList ++ rest) = '-' :: '-' :: '>' :: rest from by simp]
    rw [matchLit_cons_same, matchLit_cons_same, matchLit_cons_same,
      matchLit_nil]
    rfl
  · rw [show ("---".toList ++ rest) = '-' :: '-' :: '-' :: rest from by simp]
    rw [matchLit_cons_same, matchLit_cons_same,
      matchLit_ne_head (by decide)]
    rw [matchLit_cons_same, matchLit_cons_same, matchLit_cons_same,
      matchLit_nil]
    rfl
  · rw [show ("-.->".toList ++ rest) = '-' :: '.' :: '-' :: '>' :: rest
      from by simp]
    rw [matchLit_cons_same, matchLit_ne_head (by decide)]
    rw [matchLit_cons_same, matchLit_ne_head (by decide)]
    rw [matchLit_cons_same, matchLit_cons_same, matchLit_cons_same,
      matchLit_cons_same, matchLit_nil]
    rfl
  · rw [show ("==".toList ++ rest) = '=' :: '=' :: rest from by simp]
    rw [matchLit_ne_head (by decide), matchLit_ne_head (by decide),
      matchLit_ne_head (by decide)]
    rw [matchLit_cons_same, matchLit_cons_same, matchLit_nil]
    rfl

/-- Well-formedness of an optional face token. -/
def faceTokOk (fo : Option Str) : Prop :=
  ∀ f ∈ fo, f ≠ [] ∧ ∀ c ∈ f, isAlnumU c = true

instance (fo : Option Str) : Decidable (faceTokOk fo) := by
  unfold faceTokOk; infer_instance

theorem srcFace_class1 {src X : Str} {sf : Option Str}
    (hsrc : src ≠ []) (hsrca : ∀ c ∈ src, isAlnumU c = true) :
    Merfolk.matchClass1 isAlnumU (src ++ (faceSuffix sf ++ (' ' :: X))) =
      some (src, faceSuffix sf ++ (' ' :: X)) := by
  cases sf with
  | none =>
    simp only [faceSuffix, List.nil_append]
    exact matchClass1_spec hsrc hsrca (by decide)
  | some f =>
    rw [show faceSuffix (some f) ++ (' ' :: X) = '@' :: (f ++ (' ' :: X))
      from rfl]
    exact matchClass1_spec hsrc hsrca (by decide)

theorem matchOptFace_suffix {X : Str} {sf : Option Str} (hsf : faceTokOk sf) :
    Merfolk.matchOptFace (faceSuffix sf ++ (' ' :: X)) = (sf, ' ' :: X) := by
  cases sf with
  | none =>
    simp only [faceSuffix, List.nil_append]
    exact matchOptFace_none (by simp)
  | some f =>
    rw [show faceSuffix (some f) ++ (' ' :: X) = '@' :: (f ++ (' ' :: X))
      from rfl]
    exact matchOptFace_some (hsf f rfl).1 (hsf f rfl).2
      (fun c hc => by cases hc; decide)

theorem class1_tok_end {tok : Str} {fo : Option Str}
    (htok : tok ≠ []) (htoka : ∀ c ∈ tok, isAlnumU c = true) :
    Merfolk.matchClass1 isAlnumU (tok ++ faceSuffix fo) =
      some (tok, faceSuffix fo) := by
  cases fo with
  | none => rw [show faceSuffix none = ([] : Str) from rfl, List.append_nil]
            exact matchClass1_all htok htoka
  | some f =>
    rw [show faceSuffix (some f) = '@' :: f from rfl]
    exact matchClass1_spec htok htoka (by decide)

theorem matchOptFace_end {fo : Option Str} (hfo : faceTokOk fo) :
    Merfolk.matchOptFace (faceSuffix fo) = (fo, []) := by
  cases fo with
  | none => rfl
  | some f =>
    rw [show faceSuffix (some f) = '@' :: (f ++ []) from by simp [faceSuffix]]
    exact matchOptFace_some (hfo f rfl).1 (hfo f rfl).2 (by simp)

theorem dropSpace_append {a Y : Str} (ha : a ≠ [])
    (h : isSpaceChar (a.headD ' ') = false) :
    (' ' :: (a ++ Y)).dropWhile isSpaceChar = a ++ Y := by
  cases a with
  | nil => exact absurd rfl ha
  | cons c l =>
    rw [List.cons_append]
    exact dropSpace1 (by simpa [List.headD] using h)

theorem dropSpace_arrow {arrow Z : Str}
    (h : arrow = "-->".toList ∨ arrow = "---".toList ∨
      arrow = "-.->".toList ∨ arrow = "==".toList) :
    (' ' :: (arrow ++ Z)).dropWhile isSpaceChar = arrow ++ Z := by
  rcases h with h | h | h | h <;> subst h <;>
    exact dropSpace_append (by simp) (by decide)

theorem dropSpace_tok {tok Y : Str} (htok : tok ≠ [])
    (htoka : ∀ c ∈ tok, isAlnumU c = true) :
    (' ' :: (tok ++ Y)).dropWhile isSpaceChar = tok ++ Y := by
  refine dropSpace_append htok ?_
  cases tok with
  | nil => exact absurd rfl htok
  | cons c l =>
    exact not_space_of_alnum (htoka c (List.mem_cons_self _ _))

theorem matchLit_pipe_tok {tok Y : Str} (htok : tok ≠ [])
    (htoka : ∀ c ∈ tok, isAlnumU c = true) :
    Merfolk.matchLit ['|'] (tok ++ Y) = none := by
  cases tok with
  | nil => exact absurd rfl htok
  | cons c l =>
    rw [List.cons_append]
    refine matchLit_ne_head ?_
    intro h
    have := htoka c (List.mem_cons_self _ _)
    rw [← h] at this
    exact absurd this (by decide)

theorem matchPipePattern_spec {src tgt lbl arrow : Str} {sf tf : Option Str}
    (hsrc : src ≠ []) (hsrca : ∀ c ∈ src, isAlnumU c = true)
    (htgt : tgt ≠ []) (htgta : ∀ c ∈ tgt, isAlnumU c = true)
    (hlbl : lbl ≠ []) (hlbla : ∀ c ∈ lbl, isQuote c = false)
    (harrow : arrow = "-->".toList ∨ arrow = "---".toList ∨
      arrow = "-.->".toList ∨ arrow = "==".toList)
    (hsf : faceTokOk sf) (htf : faceTokOk tf) :
    Merfolk.matchPipePattern (pipeLine src sf arrow lbl tgt tf) =
      some ⟨src, sf, arrow, tgt, tf, some lbl⟩ := by
  have hlblb : ∀ c ∈ lbl, (fun c => !(isQuote c)) c = true := by
    intro c hc; simp [hlbla c hc]
  unfold Merfolk.matchPipePattern pipeLine
  rw [srcFace_class1 hsrc hsrca]
  simp only [option_bind_some]
  rw [matchOptFace_suffix hsf]
  rw [dropSpace_arrow harrow]
  rw [matchArrow_spec harrow]
  simp only [option_bind_some]
  rw [dropWhile_space_stop (by decide : isSpaceChar '|' = false)]
  rw [matchLit_single]
  simp only [option_bind_some]
  rw [dropWhile_space_stop (by decide : isSpaceChar dq = false)]
  rw [matchQuote_dq]
  simp only [option_bind_some]
  rw [matchClass1_spec hlbl hlblb (by decide)]
  simp only [option_bind_some]
  rw [matchQuote_dq]
  simp only [option_bind_some]
  rw [dropWhile_space_stop (by decide : isSpaceChar '|' = false)]
  rw [matchLit_single]
  simp only [option_bind_some]
  rw [dropSpace_tok htgt htgta]
  rw [class1_tok_end htgt htgta]
  dsimp only [Option.map]
  rw [matchOptFace_end htf]

theorem matchColonPattern_spec {src tgt lbl arrow : Str} {sf tf : Option Str}
    (hsrc : src ≠ []) (hsrca : ∀ c ∈ src, isAlnumU c = true)
    (htgt : tgt ≠ []) (htgta : ∀ c ∈ tgt, isAlnumU c = true)
    (hlbl : lbl ≠ []) (hlbla : ∀ c ∈ lbl, isQuote c = false)
    (harrow : arrow = "-->".toList ∨ arrow = "---".toList ∨
      arrow = "-.->".toList ∨ arrow = "==".toList)
    (hsf : faceTokOk sf) (htf : faceTokOk tf) :
    Merfolk.matchColonPattern (colonLine src sf arrow lbl tgt tf) =
      some ⟨src, sf, arrow, tgt, tf, some lbl⟩ := by
  have hlblb : ∀ c ∈ lbl, (fun c => !(isQuote c)) c = true := by
    intro c hc; simp [hlbla c hc]
  unfold Merfolk.matchColonPattern colonLine
  rw [srcFace_class1 hsrc hsrca]
  simp only [option_bind_some]
  rw [matchOptFace_suffix hsf]
  rw [dropSpace_arrow harrow]
  rw [matchArrow_spec harrow]
  simp only [option_bind_some]
  rw [dropSpace_tok htgt htgta]
  rw [srcFace_class1 htgt htgta]
  dsimp only [Option.map]
  rw [matchOptFace_suffix htf]
  rw [dropSpace1 (by decide : isSpaceChar ':' = false)]
  rw [matchLit_single]
  simp only [option_bind_some]
  rw [dropSpace1 (by decide : isSpaceChar dq = false)]
  rw [matchQuote_dq]
  simp only [option_bind_some]
  rw [matchClass1_spec hlbl hlblb (by decide)]
  simp only [option_bind_some]
  rw [matchQuote_dq]

theorem matchPipePattern_colon_none {src tgt lbl arrow : Str}
    {sf tf : Option Str}
    (hsrc : src ≠ []) (hsrca : ∀ c ∈ src, isAlnumU c = true)
    (htgt : tgt ≠ []) (htgta : ∀ c ∈ tgt, isAlnumU c = true)
    (harrow : arrow = "-->".toList ∨ arrow = "---".toList ∨
      arrow = "-.->".toList ∨ arrow = "==".toList)
    (hsf : faceTokOk sf) :
    Merfolk.matchPipePattern (colonLine src sf arrow lbl tgt tf) = none := by
  unfold Merfolk.matchPipePattern colonLine
  rw [srcFace_class1 hsrc hsrca]
  simp only [option_bind_some]
  rw [matchOptFace_suffix hsf]
  rw [dropSpace_arrow harrow]
  rw [matchArrow_spec harrow]
  simp only [option_bind_some]
  rw [dropSpace_tok htgt htgta]
  rw [matchLit_pipe_tok htgt htgta]
  rfl

/-! ## Claim theorems -/

section ClaimProofs

set_option maxRecDepth 8000
set_option maxHeartbeats 4000000

set_option allowUnsafeReducibility true in
attribute [semireducible] Rat.add Rat.sub Rat.mul Rat.inv Rat.ofScientific

/-- C2 (amended): for every node declaration in one of the five delimiter
forms whose id is a nonempty `[A-Za-z0-9_]+` token and whose category text
and display name contain no bracket characters (and the category no
colon), the declaration parses and its geometry class is the one of the
enclosing delimiter: square and double-square give box, curly gives the
many-faced solid, angle gives plate, and the reserved double-parenthesis
form falls through to the box default.  (As stated the claim is false:
`parseGeometry` scans the whole line for bracket characters in priority
order, so bracket characters elsewhere on the line override the enclosing
delimiter — see the counterexample.) -/
theorem C2_geometry_of_clean_forms (id ty nm : Str)
    (hid : id ≠ []) (hida : ∀ c ∈ id, isAlnumU c = true)
    (hty : ty ≠ []) (htyp : ∀ c ∈ ty, plainChar c ∧ c ≠ ':')
    (hnm : nm ≠ []) (hnmp : ∀ c ∈ nm, plainChar c) :
    parsedGeometry [sqLine id ty nm] 0 = some .cube ∧
    parsedGeometry [curlyLine id ty nm] 0 = some .dodecahedron ∧
    parsedGeometry [parenLine id ty nm] 0 = some .cube ∧
    parsedGeometry [angleLine id ty nm] 0 = some .plane ∧
    parsedGeometry [dsqLine id ty nm] 0 = some .cube := by
  have htyp1 : ∀ c ∈ ty, plainChar c := fun c hc => (htyp c hc).1
  refine ⟨?_, ?_, ?_, ?_, ?_⟩
  · rw [parsedGeometry_of_match (tryNodePatterns_sq hid hida hty htyp hnmp)]
    rw [parseGeometry_has_sq
      (by rw [sqLine, mem_nodeLine]; simp)
      (by rw [sqLine, mem_nodeLine]; simp)]
  · rw [parsedGeometry_of_match (tryNodePatterns_curly hid hida hty htyp hnmp)]
    rw [parseGeometry_curly_case
      (by
        rw [curlyLine]
        exact not_mem_nodeLine hida htyp1 hnmp (by decide) (by decide)
          (by decide) (by decide) (by decide) (by decide))
      (by rw [curlyLine, mem_nodeLine]; simp)
      (by rw [curlyLine, mem_nodeLine]; simp)]
  · rw [parsedGeometry_of_match (tryNodePatterns_paren hid hida hty htyp hnmp)]
    rw [parseGeometry_default_case
      (by
        rw [parenLine]
        exact not_mem_nodeLine hida htyp1 hnmp (by decide) (by decide)
          (by decide) (by decide) (by decide) (by decide))
      (by
        rw [parenLine]
        exact not_mem_nodeLine hida htyp1 hnmp (by decide) (by decide)
          (by decide) (by decide) (by decide) (by decide))
      (by
        rw [parenLine]
        exact not_mem_nodeLine hida htyp1 hnmp (by decide) (by decide)
          (by decide) (by decide) (by decide) (by decide))]
  · rw [parsedGeometry_of_match (tryNodePatterns_angle hid hida hty htyp hnmp)]
    rw [parseGeometry_angle_case
      (by
        rw [angleLine]
        exact not_mem_nodeLine hida htyp1 hnmp (by decide) (by decide)
          (by decide) (by decide) (by decide) (by decide))
      (by
        rw [angleLine]
        exact not_mem_nodeLine hida htyp1 hnmp (by decide) (by decide)
          (by decide) (by decide) (by decide) (by decide))
      (by rw [angleLine, mem_nodeLine]; simp)
      (by rw [angleLine, mem_nodeLine]; simp)]
  · rw [parsedGeometry_of_match (tryNodePatterns_dsq hid hida hty htyp hnmp)]
    rw [parseGeometry_has_sq
      (by rw [dsqLine, mem_nodeLine]; simp)
      (by rw [dsqLine, mem_nodeLine]; simp)]

/-- C2 (counterexample to the claim as stated): the curly-delimited
declaration `B{Component: arr[0]}` is a valid node declaration, but
because its display name contains `[` and `]` the whole-line bracket scan
returns box, not the many-faced solid the curly delimiter promises. -/
theorem C2_counterexample :
    parsedGeometry [exC2line] 0 = some .cube ∧
      GeometryType.cube ≠ GeometryType.dodecahedron := by
  constructor
  · rfl
  · decide

/-- C2 witness: the five clean forms at concrete tokens. -/
theorem C2_witness :
    parsedGeometry [sqLine "A".toList "Function".toList "f".toList] 0 =
      some .cube ∧
    parsedGeometry [curlyLine "A".toList "Function".toList "f".toList] 0 =
      some .dodecahedron := by
  have h := C2_geometry_of_clean_forms "A".toList "Function".toList "f".toList
    (by decide) (by decide) (by decide) (by decide) (by decide) (by decide)
  exact ⟨h.1, h.2.1⟩

/-- C3 (confirmed): for identical endpoint tokens, optional face
suffixes and arrow token, the inline-pipe style `A -->|"label"| B` and the
trailing-colon style `A --> B : "label"` parse to the same connection
record — in particular the extracted label strings are identical.  The
embedded `parseConnectionDefinition` tries the pipe-style pattern first,
as in the source's pattern array. -/
theorem C3_label_styles_agree (src tgt lbl arrow : Str) (sf tf : Option Str)
    (ctr : ℕ)
    (hsrc : src ≠ []) (hsrca : ∀ c ∈ src, isAlnumU c = true)
    (htgt : tgt ≠ []) (htgta : ∀ c ∈ tgt, isAlnumU c = true)
    (hlbl : lbl ≠ []) (hlbla : ∀ c ∈ lbl, isQuote c = false)
    (harrow : arrow = "-->".toList ∨ arrow = "---".toList ∨
      arrow = "-.->".toList ∨ arrow = "==".toList)
    (hsf : faceTokOk sf) (htf : faceTokOk tf) :
    Merfolk.parseConnectionDefinition (pipeLine src sf arrow lbl tgt tf) ctr =
      some ⟨connId ctr, Merfolk.parseConnectionType arrow, ⟨src, sf⟩,
        ⟨tgt, tf⟩, some lbl⟩ ∧
    Merfolk.parseConnectionDefinition (colonLine src sf arrow lbl tgt tf) ctr =
      some ⟨connId ctr, Merfolk.parseConnectionType arrow, ⟨src, sf⟩,
        ⟨tgt, tf⟩, some lbl⟩ := by
  constructor
  · unfold Merfolk.parseConnectionDefinition
    rw [matchPipePattern_spec hsrc hsrca htgt htgta hlbl hlbla harrow hsf htf,
      opt_orelse_some]
    rfl
  · unfold Merfolk.parseConnectionDefinition
    rw [matchPipePattern_colon_none hsrc hsrca htgt htgta harrow hsf,
      opt_orelse_none,
      matchColonPattern_spec hsrc hsrca htgt htgta hlbl hlbla harrow hsf htf]
    rfl

/-- C3 witness: `A@back -->|"go"| B@top` and `A@back --> B@top : "go"`
yield the same parsed connection with label `go`. -/
theorem C3_witness :
    Merfolk.parseConnectionDefinition
      (pipeLine "A".toList (some "back".toList) "-->".toList "go".toList
        "B".toList (some "top".toList)) 3 =
      some ⟨connId 3, Merfolk.parseConnectionType "-->".toList,
        ⟨"A".toList, some "back".toList⟩, ⟨"B".toList, some "top".toList⟩,
        some "go".toList⟩ ∧
    Merfolk.parseConnectionDefinition
      (colonLine "A".toList (some "back".toList) "-->".toList "go".toList
        "B".toList (some "top".toList)) 3 =
      some ⟨connId 3, Merfolk.parseConnectionType "-->".toList,
        ⟨"A".toList, some "back".toList⟩, ⟨"B".toList, some "top".toList⟩,
        some "go".toList⟩ :=
  C3_label_styles_agree "A".toList "B".toList "go".toList "-->".toList
    (some "back".toList) (some "top".toList) 3 (by decide) (by decide)
    (by decide) (by decide) (by decide) (by decide) (Or.inl rfl)
    (by decide) (by decide)

/-! ## Graph-model lemmas -/

theorem getNode_eq_id {g : Graph} {i : Str} {n : Node}
    (h : g.getNode i = some n) : n.id = i := by
  unfold Graph.getNode at h
  have := List.find?_some h
  simpa using this

theorem getNode_mem {g : Graph} {i : Str} {n : Node}
    (h : g.getNode i = some n) : n ∈ g.nodes :=
  List.mem_of_find?_eq_some h

theorem find_id_of_mem_nodup {l : List Node} {n : Node}
    (hd : (l.map Node.id).Nodup) (hm : n ∈ l) :
    l.find? (fun m => m.id = n.id) = some n := by
  induction l with
  | nil => cases hm
  | cons x xs ih =>
    rcases List.mem_cons.mp hm with h | h
    · subst h
      simp [List.find?_cons]
    · have hx : x.id ≠ n.id := by
        intro he
        have : n.id ∈ xs.map Node.id := List.mem_map_of_mem _ h
        rw [← he] at this
        exact (List.nodup_cons.mp (by simpa using hd)).1 this
      rw [List.find?_cons, decide_eq_false hx]
      exact ih (List.nodup_cons.mp (by simpa using hd)).2 h

theorem getNode_of_mem_nodup {g : Graph} {n : Node}
    (hd : (g.nodes.map Node.id).Nodup) (hm : n ∈ g.nodes) :
    g.getNode n.id = some n :=
  find_id_of_mem_nodup hd hm

theorem find_update {l : List Node} {j i : Str} {f : Node → Node}
    (hf : ∀ n, (f n).id = n.id) :
    (l.map (fun n => if n.id = j then f n else n)).find?
        (fun n => n.id = i) =
      (l.find? (fun n => n.id = i)).map
        (fun n => if n.id = j then f n else n) := by
  induction l with
  | nil => rfl
  | cons m rest ih =>
    have hid : (if m.id = j then f m else m).id = m.id := by
      by_cases h : m.id = j
      · simp [h, hf]
      · simp [h]
    by_cases hmi : m.id = i
    · rw [List.map_cons, List.find?_cons, List.find?_cons,
        decide_eq_true (hid.trans hmi), decide_eq_true hmi]
      rfl
    · rw [List.map_cons, List.find?_cons, List.find?_cons,
        decide_eq_false (fun he => hmi (hid ▸ he)), decide_eq_false hmi]
      exact ih

theorem getNode_updateNode {g : Graph} {j : Str} {f : Node → Node} {i : Str}
    (hf : ∀ n, (f n).id = n.id) :
    (g.updateNode j f).getNode i =
      (g.getNode i).map (fun n => if n.id = j then f n else n) :=
  find_update hf

theorem setPosition_id {n : Node} {p : Vec3} : (n.setPosition p).id = n.id :=
  rfl

theorem addChild_id {n : Node} {c : Str} : (n.addChild c).id = n.id := by
  unfold Node.addChild
  split <;> rfl

theorem addParent_id {n : Node} {c : Str} : (n.addParent c).id = n.id := by
  unfold Node.addParent
  split <;> rfl

theorem addChild_transform {n : Node} {c : Str} :
    (n.addChild c).transform = n.transform := by
  unfold Node.addChild
  split <;> rfl

theorem addParent_transform {n : Node} {c : Str} :
    (n.addParent c).transform = n.transform := by
  unfold Node.addParent
  split <;> rfl

theorem updateNode_connections {g : Graph} {j : Str} {f : Node → Node} :
    (g.updateNode j f).connections = g.connections := rfl

theorem getNode_updateNodePos_ne {g : Graph} {j : Str} {p : Vec3} {i : Str}
    (h : j ≠ i) : (updateNodePos g j p).getNode i = g.getNode i := by
  unfold updateNodePos
  rw [getNode_updateNode (fun n => setPosition_id)]
  cases hg : g.getNode i with
  | none => rfl
  | some n =>
    have : n.id = i := getNode_eq_id hg
    simp [Option.map, this, Ne.symm h]

theorem getNode_updateNodePos_eq {g : Graph} {i : Str} {p : Vec3} {n : Node}
    (h : g.getNode i = some n) :
    (updateNodePos g i p).getNode i = some (n.setPosition p) := by
  unfold updateNodePos
  rw [getNode_updateNode (fun n => setPosition_id), h]
  simp [Option.map, getNode_eq_id h]

theorem updateNodePos_connections {g : Graph} {j : Str} {p : Vec3} :
    (updateNodePos g j p).connections = g.connections := rfl

theorem getNode_isSome_updateNode {g : Graph} {j : Str} {f : Node → Node}
    {i : Str} (hf : ∀ n, (f n).id = n.id) :
    ((g.updateNode j f).getNode i).isSome = (g.getNode i).isSome := by
  rw [getNode_updateNode hf]
  cases g.getNode i <;> rfl

theorem getNode_applyPositions_ne {g : Graph} {asg : List (Str × Vec3)}
    {i : Str} (h : ∀ a ∈ asg, a.1 ≠ i) :
    (applyPositions g asg).getNode i = g.getNode i := by
  unfold applyPositions
  refine @foldl_preserve _ _ (fun g' : Graph => g'.getNode i = g.getNode i) _ _
    ?_ _ rfl
  intro a b hb hP
  rw [getNode_updateNodePos_ne (h b hb), hP]

theorem applyPositions_connections {g : Graph} {asg : List (Str × Vec3)} :
    (applyPositions g asg).connections = g.connections := by
  unfold applyPositions
  refine @foldl_preserve _ _ (fun g' : Graph => g'.connections = g.connections)
    _ _ ?_ _ rfl
  intro a b _ hP
  exact hP

theorem getNode_isSome_applyPositions {g : Graph} {asg : List (Str × Vec3)}
    {i : Str} :
    ((applyPositions g asg).getNode i).isSome = (g.getNode i).isSome := by
  unfold applyPositions
  refine @foldl_preserve _ _
    (fun g' : Graph => (g'.getNode i).isSome = (g.getNode i).isSome)
    _ _ ?_ _ rfl
  intro a b _ hP
  show ((updateNodePos a b.1 b.2).getNode i).isSome = (g.getNode i).isSome
  unfold updateNodePos
  rw [getNode_isSome_updateNode (fun n => setPosition_id)]
  exact hP

theorem mem_enumFrom_snd {α : Type} {l : List α} {k : ℕ} {p : ℕ × α}
    (h : p ∈ l.enumFrom k) : p.2 ∈ l := by
  induction l generalizing k with
  | nil => cases h
  | cons x xs ih =>
    rcases List.mem_cons.mp h with h1 | h1
    · rw [h1]; exact List.mem_cons_self _ _
    · exact List.mem_cons_of_mem _ (ih h1)

theorem mem_enum_snd {α : Type} {l : List α} {p : ℕ × α}
    (h : p ∈ l.enum) : p.2 ∈ l := mem_enumFrom_snd h

theorem getNode_isSome_of_mem {g : Graph} {n : Node} (hm : n ∈ g.nodes) :
    (g.getNode n.id).isSome := by
  unfold Graph.getNode
  rw [List.find?_isSome]
  exact ⟨n, hm, by simp⟩

theorem applyPositions_cons {g : Graph} {a : Str × Vec3}
    {l : List (Str × Vec3)} :
    applyPositions g (a :: l) = applyPositions (updateNodePos g a.1 a.2) l :=
  rfl

theorem pinnedIds_nil {g : Graph}
    (h : ∀ n ∈ g.nodes, n.transform.position = vzero) : pinnedIds g = [] := by
  unfold pinnedIds
  have hf : g.nodes.filter (fun n => !decide (n.transform.position = vzero)) =
      [] := by
    rw [List.filter_eq_nil_iff]
    intro n hn
    simp [h n hn]
  rw [hf]
  rfl

theorem nodePosition_applyPositions_enum {ids : List Str}
    {f : Nat × Str → Str × Vec3} (hf : ∀ p, (f p).1 = p.2)
    {g : Graph} {j k : Nat} {i : Str}
    (hd : ids.Nodup) (hk : ids.get? k = some i)
    (hg : (g.getNode i).isSome) :
    nodePosition (applyPositions g ((ids.enumFrom j).map f)) i =
      some (f (j + k, i)).2 := by
  induction ids generalizing g j k with
  | nil => simp at hk
  | cons x xs ih =>
    have hxxs : x ∉ xs := (List.nodup_cons.mp hd).1
    have henum : (x :: xs).enumFrom j = (j, x) :: xs.enumFrom (j + 1) := rfl
    rw [henum, List.map_cons, applyPositions_cons, hf (j, x)]
    cases k with
    | zero =>
      have hxi : x = i := by simpa using hk
      subst hxi
      have h2 : ∀ a ∈ (xs.enumFrom (j + 1)).map f, a.1 ≠ x := by
        intro a ha he
        obtain ⟨p, hp, rfl⟩ := List.mem_map.mp ha
        rw [hf p] at he
        exact hxxs (he ▸ mem_enumFrom_snd hp)
      obtain ⟨n, hn⟩ := Option.isSome_iff_exists.mp hg
      unfold nodePosition
      rw [getNode_applyPositions_ne h2, getNode_updateNodePos_eq hn,
        Nat.add_zero]
      rfl
    | succ k1 =>
      have hk1 : xs.get? k1 = some i := by simpa using hk
      have hg1 : ((updateNodePos g x (f (j, x)).2).getNode i).isSome := by
        unfold updateNodePos
        rw [getNode_isSome_updateNode (fun n => setPosition_id)]
        exact hg
      rw [show j + (k1 + 1) = (j + 1) + k1 from by omega]
      exact ih (List.nodup_cons.mp hd).2 hk1 hg1

/-- C5 (amended): grid layout places the un-pinned nodes row-major in a
square grid of side `ceil(sqrt n)` with cell size `max(spacing, 30)` — the
`k`-th node goes to `((k mod side − side/2)·cell, 0, (k div side −
side/2)·cell)`.  The positions are distinct and lie on the grid, but the
whole grid is offset by half a side from the origin rather than centred on
it, so the "centered about the origin" part of the claim is false (see the
counterexample). -/
theorem C5_grid_row_major (g : Graph) (cfg : Config) (k : Nat) (i : Str)
    (halg : cfg.algorithm = .grid)
    (hd : (g.nodes.map (fun n => n.id)).Nodup)
    (hpin : ∀ n ∈ g.nodes, n.transform.position = vzero)
    (hk : (g.nodes.map (fun n => n.id)).get? k = some i) :
    nodePosition (applyLayout g cfg) i =
      some
        ⟨(((k % natCeilSqrt g.nodes.length : Nat) : ℚ) -
            (natCeilSqrt g.nodes.length : ℚ) / 2) * jsMax cfg.nodeSpacing 30,
          0,
          (((k / natCeilSqrt g.nodes.length : Nat) : ℚ) -
            (natCeilSqrt g.nodes.length : ℚ) / 2) *
              jsMax cfg.nodeSpacing 30⟩ := by
  obtain ⟨alg, s⟩ := cfg
  simp only at halg
  subst halg
  show nodePosition (applyGridLayout g (pinnedIds g) ⟨.grid, s⟩) i = _
  rw [pinnedIds_nil hpin]
  have hfilter : g.nodes.filter (fun n => !(([] : List Str).contains n.id)) =
      g.nodes := List.filter_eq_self.mpr (fun a _ => rfl)
  have hne : g.nodes.map (fun n => n.id) ≠ [] := by
    intro h0
    rw [h0] at hk
    simp at hk
  have hempty : (g.nodes.map (fun n => n.id)).isEmpty = false := by
    cases hl : g.nodes.map (fun n => n.id) with
    | nil => exact absurd hl hne
    | cons a l => rfl
  have hmem : i ∈ g.nodes.map (fun n => n.id) := List.get?_mem hk
  have hsome : (g.getNode i).isSome := by
    obtain ⟨n, hn, hni⟩ := List.mem_map.mp hmem
    have := getNode_isSome_of_mem hn
    rw [hni] at this
    exact this
  simp only [applyGridLayout]
  rw [hfilter, if_neg (by rw [hempty]; exact fun h => nomatch h)]
  have H := @nodePosition_applyPositions_enum (g.nodes.map (fun n => n.id))
    (fun p =>
      (p.2,
        ⟨(((p.1 % natCeilSqrt (g.nodes.map (fun n => n.id)).length : Nat) :
              ℚ) -
            (natCeilSqrt (g.nodes.map (fun n => n.id)).length : ℚ) / 2) *
              jsMax s 30,
          0,
          (((p.1 / natCeilSqrt (g.nodes.map (fun n => n.id)).length : Nat) :
              ℚ) -
            (natCeilSqrt (g.nodes.map (fun n => n.id)).length : ℚ) / 2) *
              jsMax s 30⟩))
    (fun p => rfl) g 0 k i hd hk hsome
  exact H.trans (by simp)

/-- C5 counterexample (to the claim as stated): four un-pinned nodes with
configured spacing 10 land on the 2×2 grid with cell size 30 at four
distinct positions, but their centroid is `(−15, 0, −15)`, not the origin
— the layout is not centred about the origin. -/
theorem C5_counterexample :
    positionsOf (applyLayout exGrid4 ⟨.grid, 10⟩) =
      [⟨-30, 0, -30⟩, ⟨0, 0, -30⟩, ⟨-30, 0, 0⟩, ⟨0, 0, 0⟩] ∧
    (positionsOf (applyLayout exGrid4 ⟨.grid, 10⟩)).Nodup ∧
    vsum (positionsOf (applyLayout exGrid4 ⟨.grid, 10⟩)) ≠ vzero := by
  refine ⟨by decide, by decide, by decide⟩

/-- C5 witness: the second of four un-pinned nodes (spacing 10, effective
cell 30, side 2) is placed at `(0, 0, −30)`. -/
theorem C5_witness :
    nodePosition (applyLayout exGrid4 ⟨.grid, 10⟩) "B".toList =
      some ⟨0, 0, -30⟩ := by
  have h := C5_grid_row_major exGrid4 ⟨.grid, 10⟩ 1 "B".toList rfl
    (by decide) (by decide) (by decide)
  rw [h]
  decide

theorem contains_false_ne {pinned : List Str} {x i : Str}
    (hi : i ∈ pinned) (hx : pinned.contains x = false) : x ≠ i := by
  intro he
  subst he
  have hm : pinned.contains x = true := List.elem_iff.mpr hi
  rw [hx] at hm
  cases hm

theorem mem_filter_unpinned {pinned : List Str} {nodes : List Node} {x : Str}
    (hx : x ∈ (nodes.filter (fun n => !pinned.contains n.id)).map
      (fun n => n.id)) : pinned.contains x = false := by
  obtain ⟨n, hn, rfl⟩ := List.mem_map.mp hx
  have := (List.mem_filter.mp hn).2
  simpa using this

theorem getNode_updateConnectionAnchors {g : Graph} {i : Str} :
    (updateConnectionAnchors g).getNode i = g.getNode i := rfl

theorem getNode_hierarchical_pinned {g : Graph} {pinned : List Str}
    {cfg : Config} {i : Str} (hi : i ∈ pinned) :
    (applyHierarchicalLayout g pinned cfg).getNode i = g.getNode i := by
  unfold applyHierarchicalLayout
  refine @foldl_preserve _ _ (fun g' : Graph => g'.getNode i = g.getNode i)
    _ _ ?_ _ rfl
  intro a li _ hP
  dsimp only
  split
  · exact hP
  · rw [getNode_applyPositions_ne, hP]
    intro b hb
    obtain ⟨p, hp, rfl⟩ := List.mem_map.mp hb
    have hmem : p.2 ∈ li.2.filter (fun x => !pinned.contains x) :=
      mem_enumFrom_snd hp
    have hcf : pinned.contains p.2 = false := by
      have := (List.mem_filter.mp hmem).2
      simpa using this
    exact contains_false_ne hi hcf

theorem getNode_circular_pinned {g : Graph} {pinned : List Str}
    {cfg : Config} {i : Str} (hi : i ∈ pinned) :
    (applyCircularLayout g pinned cfg).getNode i = g.getNode i := by
  unfold applyCircularLayout
  dsimp only
  split
  · rfl
  · rw [getNode_applyPositions_ne]
    intro b hb
    obtain ⟨p, hp, rfl⟩ := List.mem_map.mp hb
    exact contains_false_ne hi (mem_filter_unpinned (mem_enumFrom_snd hp))

theorem getNode_grid_pinned {g : Graph} {pinned : List Str}
    {cfg : Config} {i : Str} (hi : i ∈ pinned) :
    (applyGridLayout g pinned cfg).getNode i = g.getNode i := by
  unfold applyGridLayout
  dsimp only
  split
  · rfl
  · rw [getNode_applyPositions_ne]
    intro b hb
    obtain ⟨p, hp, rfl⟩ := List.mem_map.mp hb
    exact contains_false_ne hi (mem_filter_unpinned (mem_enumFrom_snd hp))

/-- C1 (amended): the hierarchical, circular and grid layouts assign
positions only to un-pinned nodes, so a pinned node (one carrying a
non-origin position when layout starts) still holds its exact position
after layout and anchor recomputation.  The claim as stated is false for
the force-directed algorithm: its attractive force moves both endpoints of
a connection, pinned or not, so a pinned node connected to anything is
dragged off its position (see the counterexample, a full parse-and-build
run). -/
theorem C1_pinned_nonforce (g : Graph) (cfg : Config) (i : Str)
    (hpin : i ∈ pinnedIds g) (halg : cfg.algorithm ≠ .forceDirected) :
    nodePosition (updateConnectionAnchors (applyLayout g cfg)) i =
      nodePosition g i := by
  unfold nodePosition
  rw [getNode_updateConnectionAnchors]
  obtain ⟨alg, s⟩ := cfg
  cases alg with
  | forceDirected => exact absurd rfl halg
  | hierarchical =>
    show ((applyHierarchicalLayout g (pinnedIds g)
          ⟨.hierarchical, s⟩).getNode i).map (fun n => n.transform.position) =
      (g.getNode i).map (fun n => n.transform.position)
    rw [getNode_hierarchical_pinned hpin]
  | circular =>
    show ((applyCircularLayout g (pinnedIds g)
          ⟨.circular, s⟩).getNode i).map (fun n => n.transform.position) =
      (g.getNode i).map (fun n => n.transform.position)
    rw [getNode_circular_pinned hpin]
  | grid =>
    show ((applyGridLayout g (pinnedIds g)
          ⟨.grid, s⟩).getNode i).map (fun n => n.transform.position) =
      (g.getNode i).map (fun n => n.transform.position)
    rw [getNode_grid_pinned hpin]

/-- C1 counterexample (to the claim as stated): node `A` of `exC1parsed`
carries the explicit position property `"1,0,0"`, which parses to the
non-origin `(1, 0, 0)` — yet a full build under the force-directed layout
leaves `A` somewhere else: the attractive force along `A --> B` moves the
pinned endpoint too. -/
theorem C1_counterexample :
    parsePosition (.str "1,0,0".toList) = ⟨1, 0, 0⟩ ∧
    (⟨1, 0, 0⟩ : Vec3) ≠ vzero ∧
    buildNodePos exC1parsed ⟨.forceDirected, 2⟩ "A".toList ≠
      some ⟨1, 0, 0⟩ := by
  refine ⟨by decide, by decide, by decide⟩

/-- C1 witness: the pinned node `A` of the two-node graph `exPinned` keeps
its position `(1, 0, 0)` under the default hierarchical layout. -/
theorem C1_witness :
    nodePosition
        (updateConnectionAnchors (applyLayout exPinned defaultConfig))
        "A".toList =
      nodePosition exPinned "A".toList :=
  C1_pinned_nonforce exPinned defaultConfig "A".toList (by decide) (by decide)

theorem pushLayer_mem {ls : List (Nat × List Str)} {l : Nat} {j : Str}
    {k : Nat} {i : Str} (h : layerMem ls k i) :
    layerMem (pushLayer ls l j) k i := by
  induction ls with
  | nil =>
    obtain ⟨e, he, _, _⟩ := h
    cases he
  | cons e rest ih =>
    obtain ⟨ek, eids⟩ := e
    obtain ⟨e', he', hk, hi⟩ := h
    unfold pushLayer
    split
    · rcases List.mem_cons.mp he' with rfl | hmem
      · exact ⟨(ek, eids ++ [j]), List.mem_cons_self _ _, hk,
          List.mem_append.mpr (Or.inl hi)⟩
      · exact ⟨e', List.mem_cons_of_mem _ hmem, hk, hi⟩
    · rcases List.mem_cons.mp he' with rfl | hmem
      · exact ⟨(ek, eids), List.mem_cons_self _ _, hk, hi⟩
      · obtain ⟨e2, he2, hk2, hi2⟩ := ih ⟨e', hmem, hk, hi⟩
        exact ⟨e2, List.mem_cons_of_mem _ he2, hk2, hi2⟩

theorem pushLayer_mem_self {ls : List (Nat × List Str)} {l : Nat} {j : Str} :
    layerMem (pushLayer ls l j) l j := by
  induction ls with
  | nil => exact ⟨(l, [j]), List.mem_cons_self _ _, rfl, List.mem_singleton.mpr rfl⟩
  | cons e rest ih =>
    obtain ⟨ek, eids⟩ := e
    unfold pushLayer
    split
    · next heq =>
      exact ⟨(ek, eids ++ [j]), List.mem_cons_self _ _, heq,
        List.mem_append.mpr (Or.inr (List.mem_singleton.mpr rfl))⟩
    · obtain ⟨e2, he2, hk2, hi2⟩ := ih
      exact ⟨e2, List.mem_cons_of_mem _ he2, hk2, hi2⟩

theorem pushLayer_mem_inv {ls : List (Nat × List Str)} {l : Nat} {j : Str}
    {k : Nat} {i : Str} (h : layerMem (pushLayer ls l j) k i) :
    layerMem ls k i ∨ (k = l ∧ i = j) := by
  induction ls with
  | nil =>
    obtain ⟨e, he, hk, hi⟩ := h
    have he' : e = (l, [j]) := List.mem_singleton.mp he
    subst he'
    right
    exact ⟨hk.symm, List.mem_singleton.mp hi⟩
  | cons e rest ih =>
    obtain ⟨ek, eids⟩ := e
    unfold pushLayer at h
    split at h
    · next heq =>
      obtain ⟨e', he', hk, hi⟩ := h
      rcases List.mem_cons.mp he' with rfl | hmem
      · rcases List.mem_append.mp hi with hi2 | hi2
        · exact Or.inl ⟨(ek, eids), List.mem_cons_self _ _, hk, hi2⟩
        · exact Or.inr ⟨hk ▸ heq ▸ rfl, List.mem_singleton.mp hi2⟩
      · exact Or.inl ⟨e', List.mem_cons_of_mem _ hmem, hk, hi⟩
    · obtain ⟨e', he', hk, hi⟩ := h
      rcases List.mem_cons.mp he' with rfl | hmem
      · exact Or.inl ⟨(ek, eids), List.mem_cons_self _ _, hk, hi⟩
      · rcases ih ⟨e', hmem, hk, hi⟩ with h2 | h2
        · obtain ⟨e2, he2, hk2, hi2⟩ := h2
          exact Or.inl ⟨e2, List.mem_cons_of_mem _ he2, hk2, hi2⟩
        · exact Or.inr h2

theorem assignToLayers_mono {g : Graph} {fuel : Nat} {node : Node}
    {layer : Nat} {st : List (Nat × List Str) × List Str}
    {k : Nat} {i : Str} (h : layerMem st.1 k i) :
    layerMem (assignToLayers g fuel node layer st).1 k i := by
  induction fuel generalizing node layer st with
  | zero => exact h
  | succ fuel ih =>
    unfold assignToLayers
    split
    · exact h
    · refine @foldl_preserve _ _
        (fun st' : List (Nat × List Str) × List Str => layerMem st'.1 k i)
        _ _ ?_ _ (pushLayer_mem h)
      intro a c _ hP
      dsimp only
      cases g.getNode c with
      | none => exact hP
      | some child => exact ih hP

theorem assignToLayers_justified {g : Graph} (fuel : Nat) (node : Node)
    (layer : Nat) (st : List (Nat × List Str) × List Str)
    (hnode : g.getNode node.id = some node)
    (hanc : ∀ k, layer = k + 1 →
      ∃ p pn, layerMem st.1 k p ∧ g.getNode p = some pn ∧
        node.id ∈ pn.children)
    (hjust : layersJustified g st.1) :
    layersJustified g (assignToLayers g fuel node layer st).1 := by
  induction fuel generalizing node layer st with
  | zero => exact hjust
  | succ fuel ih =>
    unfold assignToLayers
    split
    · exact hjust
    · have hbase1 : layersJustified g (pushLayer st.1 layer node.id) := by
        intro k i hmem
        rcases pushLayer_mem_inv hmem with hold | ⟨hk, hi⟩
        · obtain ⟨p, pn, hp1, hp2, hp3⟩ := hjust k i hold
          exact ⟨p, pn, pushLayer_mem hp1, hp2, hp3⟩
        · obtain ⟨p, pn, hp1, hp2, hp3⟩ := hanc k hk.symm
          subst hi
          exact ⟨p, pn, pushLayer_mem hp1, hp2, hp3⟩
      have hstep : ∀ (a : List (Nat × List Str) × List Str) (c : Str),
          c ∈ node.children →
          (layersJustified g a.1 ∧ layerMem a.1 layer node.id) →
          layersJustified g
              ((match g.getNode c with
                | some child => assignToLayers g fuel child (layer + 1) a
                | none => a).1) ∧
            layerMem
              ((match g.getNode c with
                | some child => assignToLayers g fuel child (layer + 1) a
                | none => a).1) layer node.id := by
        intro a c hc hP
        obtain ⟨hj, hm⟩ := hP
        cases hgc : g.getNode c with
        | none => exact ⟨hj, hm⟩
        | some child =>
          have hcid : child.id = c := getNode_eq_id hgc
          refine ⟨?_, assignToLayers_mono hm⟩
          apply ih child (layer + 1) a
          · rw [hcid]; exact hgc
          · intro k hk
            have hlk : layer = k := by omega
            subst hlk
            exact ⟨node.id, node, hm, hnode, hcid ▸ hc⟩
          · exact hj
      have H := @foldl_preserve _ _
        (fun st' : List (Nat × List Str) × List Str =>
          layersJustified g st'.1 ∧ layerMem st'.1 layer node.id)
        (fun st c =>
          match g.getNode c with
          | some child => assignToLayers g fuel child (layer + 1) st
          | none => st)
        node.children (fun a c hc hP => hstep a c hc hP)
        (pushLayer st.1 layer node.id, st.2 ++ [node.id])
        ⟨hbase1, pushLayer_mem_self⟩
      exact H.1

theorem hierarchicalLayers_justified {g : Graph}
    (hd : (g.nodes.map Node.id).Nodup) :
    layersJustified g (hierarchicalLayers g) := by
  unfold hierarchicalLayers
  refine @foldl_preserve _ _ (fun ls => layersJustified g ls) _ _ ?_ _ ?_
  · intro ls r hr hP
    dsimp only
    apply assignToLayers_justified
    · exact getNode_of_mem_nodup hd (List.mem_filter.mp hr).1
    · intro k hk
      cases hk
    · exact hP
  · intro k i hmem
    obtain ⟨e, he, _, _⟩ := hmem
    cases he

/-- C4 (amended): the hierarchical layer assignment is a depth-first pass
from every root in which an already-visited node keeps its first assigned
layer — there is no `max(current, parent + 1)` update, so a node's layer
can be smaller than a parent's layer plus one (see the counterexample).
What does hold is that the layer map is child-justified: every node placed
at layer `k + 1` is a listed child of some node placed at layer `k`. -/
theorem C4_layers_justified (g : Graph)
    (hd : (g.nodes.map Node.id).Nodup) :
    layersJustified g (hierarchicalLayers g) :=
  hierarchicalLayers_justified hd

/-- C4 counterexample (to the claim as stated): in the diamond graph
(`A`'s children `[C, B]`, `B`'s child `[C]`), the depth-first pass reaches
`C` through `A` first and pins it at layer 1, where its parent `B` also
sits — so `C`'s layer is not at least one more than its parent `B`'s. -/
theorem C4_counterexample :
    hierarchicalLayers exDiamond =
      [(0, ["A".toList]), (1, ["C".toList, "B".toList])] ∧
    layerMem (hierarchicalLayers exDiamond) 1 "B".toList ∧
    (∀ e ∈ hierarchicalLayers exDiamond, "C".toList ∈ e.2 → e.1 = 1) ∧
    (exDiamond.getNode "B".toList).map Node.children = some ["C".toList] ∧
    ¬ 1 + 1 ≤ 1 := by
  refine ⟨by decide, by decide, by decide, by decide, by decide⟩

/-- C4 witness: the child-justification property at the concrete diamond
graph. -/
theorem C4_witness :
    layersJustified exDiamond (hierarchicalLayers exDiamond) :=
  C4_layers_justified exDiamond (by decide)

theorem except_map_ok {α β : Type} (f : α → β) (a : α) :
    (Except.ok a : Except String α).map f = .ok (f a) := rfl

theorem except_map_error {α β : Type} (f : α → β) (e : String) :
    (Except.error e : Except String α).map f = .error e := rfl

theorem except_bindE_ok {α β : Type} (a : α) (k : α → Except String β) :
    (Except.ok a : Except String α).bind k = k a := rfl

theorem except_bindE_error {α β : Type} (e : String)
    (k : α → Except String β) :
    (Except.error e : Except String α).bind k = .error e := rfl

theorem mapGet_mapSet_self {α β : Type} [DecidableEq α] {m : List (α × β)}
    {k : α} {v : β} : mapGet (mapSet m k v) k = some v := by
  induction m with
  | nil => simp [mapSet, mapGet]
  | cons p rest ih =>
    obtain ⟨k', v'⟩ := p
    unfold mapSet
    split
    · unfold mapGet
      simp
    · next h =>
      unfold mapGet
      rw [if_neg h]
      exact ih

theorem mapGet_mapSet_ne {α β : Type} [DecidableEq α] {m : List (α × β)}
    {k j : α} {v : β} (h : k ≠ j) :
    mapGet (mapSet m k v) j = mapGet m j := by
  induction m with
  | nil => simp [mapSet, mapGet, h]
  | cons p rest ih =>
    obtain ⟨k', v'⟩ := p
    unfold mapSet
    split
    · next heq =>
      subst heq
      unfold mapGet
      rw [if_neg h, if_neg h]
    · unfold mapGet
      by_cases hj : k' = j
      · rw [if_pos hj, if_pos hj]
      · rw [if_neg hj, if_neg hj]
        exact ih

theorem find?_nodeListSet_self {l : List Node} {n : Node} :
    (nodeListSet l n).find? (fun m => m.id = n.id) = some n := by
  induction l with
  | nil => simp [nodeListSet, List.find?]
  | cons m rest ih =>
    unfold nodeListSet
    split
    · rw [List.find?_cons, decide_eq_true rfl]
    · next h =>
      rw [List.find?_cons, decide_eq_false h]
      exact ih

theorem getNode_addNode_self {g : Graph} {n : Node} :
    (g.addNode n).getNode n.id = some n := find?_nodeListSet_self

theorem find?_nodeListSet_ne {l : List Node} {n : Node} {i : Str}
    (h : n.id ≠ i) :
    (nodeListSet l n).find? (fun m => m.id = i) =
      l.find? (fun m => m.id = i) := by
  induction l with
  | nil =>
    unfold nodeListSet
    rw [List.find?_cons, decide_eq_false h]
  | cons m rest ih =>
    unfold nodeListSet
    split
    · next he =>
      rw [List.find?_cons, List.find?_cons, decide_eq_false h,
        decide_eq_false (he.symm ▸ h : m.id ≠ i)]
    · rw [List.find?_cons, List.find?_cons]
      by_cases hm : m.id = i
      · rw [decide_eq_true hm]
      · rw [decide_eq_false hm]
        exact ih

theorem getNode_addNode_ne {g : Graph} {n : Node} {i : Str} (h : n.id ≠ i) :
    (g.addNode n).getNode i = g.getNode i := find?_nodeListSet_ne h

theorem createNode_id {pn : ParsedNode} {n : Node}
    (h : createNode pn = .ok n) : n.id = pn.id := by
  unfold createNode at h
  cases hm : mapGet pn.properties "scale".toList with
  | none =>
    rw [hm] at h
    simp only [Except.map] at h
    cases h
    cases mapGet pn.properties "position".toList with
    | none => rfl
    | some v =>
      split <;> first | rfl | (split <;> rfl)
  | some v =>
    rw [hm] at h
    dsimp only at h
    by_cases ht : jsTruthy v = true
    · rw [if_pos ht] at h
      cases hs : parseScale v with
      | error e =>
        rw [hs] at h
        simp only [Except.map] at h
        cases h
      | ok sc =>
        rw [hs] at h
        simp only [Except.map] at h
        cases h
        cases mapGet pn.properties "position".toList with
        | none => rfl
        | some v2 => split <;> first | rfl | (split <;> rfl)
    · rw [if_neg ht] at h
      simp only [Except.map] at h
      cases h
      cases mapGet pn.properties "position".toList with
      | none => rfl
      | some v2 =>
        split <;> first | rfl | (split <;> rfl)

theorem parseScale_str_ok (s : Str) : ∃ w, parseScale (.str s) = .ok w := by
  unfold parseScale
  dsimp only
  split
  · exact ⟨_, rfl⟩
  · split
    · exact ⟨_, rfl⟩
    · exact ⟨_, rfl⟩

theorem createNode_error {pn : ParsedNode} {e : String}
    (h : createNode pn = .error e) : e = scaleSplitMsg := by
  unfold createNode at h
  cases hm : mapGet pn.properties "scale".toList with
  | none =>
    rw [hm] at h
    simp only [Except.map] at h
    cases h
  | some v =>
    rw [hm] at h
    dsimp only at h
    by_cases ht : jsTruthy v = true
    · rw [if_pos ht] at h
      cases hs : parseScale v with
      | ok sc =>
        rw [hs] at h
        simp only [Except.map] at h
        cases h
      | error e2 =>
        rw [hs] at h
        simp only [Except.map] at h
        cases h
        cases v with
        | str s =>
          obtain ⟨w, hw⟩ := parseScale_str_ok s
          rw [hw] at hs
          cases hs
        | num q =>
          unfold parseScale at hs
          cases hs
          rfl
        | arr l =>
          unfold parseScale at hs
          cases hs
          rfl
    · rw [if_neg ht] at h
      simp only [Except.map] at h
      cases h

theorem nodePhase_inv {pg : ParsedGraph} {g0 : Graph}
    (h0 : g0.connections = [])
    {nmg : List (Str × Node) × Graph}
    (h : pg.nodes.foldlM
        (fun (acc : List (Str × Node) × Graph) pn =>
          (createNode pn).map fun node =>
            (mapSet acc.1 pn.id node, acc.2.addNode node))
        ([], g0) = .ok nmg) :
    nmg.2.connections = [] ∧
    ∀ i, (mapGet nmg.1 i).isSome → (nmg.2.getNode i).isSome := by
  refine @foldlM_ok_preserve _ _
    (fun acc : List (Str × Node) × Graph => acc.2.connections = [] ∧
      ∀ i, (mapGet acc.1 i).isSome → (acc.2.getNode i).isSome)
    _ _ ?_ ([], g0) ?_ nmg h
  · intro a pn r _ hP hr
    cases hc : createNode pn with
    | error e =>
      rw [hc] at hr
      simp only [Except.map] at hr
      cases hr
    | ok node =>
      rw [hc] at hr
      simp only [Except.map] at hr
      cases hr
      obtain ⟨hconn, hmap⟩ := hP
      refine ⟨hconn, ?_⟩
      intro i hi
      by_cases hip : pn.id = i
      · subst hip
        have hid := createNode_id hc
        rw [show (a.2.addNode node).getNode pn.id =
            (a.2.addNode node).getNode node.id from by rw [hid]]
        rw [getNode_addNode_self]
        rfl
      · rw [mapGet_mapSet_ne hip] at hi
        have := hmap i hi
        rw [getNode_addNode_ne]
        · exact this
        · rw [createNode_id hc]
          exact hip
  · refine ⟨h0, ?_⟩
    intro i hi
    simp [mapGet] at hi

theorem connListSet_mem {l : List Connection} {c d : Connection}
    (h : d ∈ connListSet l c) : d ∈ l ∨ d = c := by
  induction l with
  | nil =>
    unfold connListSet at h
    exact Or.inr (List.mem_singleton.mp h)
  | cons e rest ih =>
    unfold connListSet at h
    split at h
    · rcases List.mem_cons.mp h with rfl | hm
      · exact Or.inr rfl
      · exact Or.inl (List.mem_cons_of_mem _ hm)
    · rcases List.mem_cons.mp h with rfl | hm
      · exact Or.inl (List.mem_cons_self _ _)
      · rcases ih hm with h2 | h2
        · exact Or.inl (List.mem_cons_of_mem _ h2)
        · exact Or.inr h2

theorem addConnection_ok {g : Graph} {c : Connection} {sn tn : Node}
    (hs : g.getNode c.source.nodeId = some sn)
    (ht : g.getNode c.target.nodeId = some tn) :
    ∃ g2, g.addConnection c = .ok g2 ∧
      (∀ i, (g2.getNode i).isSome = (g.getNode i).isSome) ∧
      (∀ d ∈ g2.connections, d ∈ g.connections ∨
        (d.source.nodeId = c.source.nodeId ∧
          d.target.nodeId = c.target.nodeId)) := by
  unfold Graph.addConnection
  rw [hs, ht]
  refine ⟨_, rfl, ?_, ?_⟩
  · intro i
    show (((g.updateNode c.source.nodeId (fun n => n.addChild c.target.nodeId)
        ).updateNode c.target.nodeId
          (fun n => n.addParent c.source.nodeId)).getNode i).isSome =
      (g.getNode i).isSome
    rw [getNode_isSome_updateNode (fun n => addParent_id),
      getNode_isSome_updateNode (fun n => addChild_id)]
  · intro d hd
    rcases connListSet_mem hd with hold | rfl
    · exact Or.inl hold
    · refine Or.inr ⟨?_, ?_⟩
      · dsimp only
        split <;> first | rfl | (split <;> rfl)
      · dsimp only
        split <;> first | rfl | (split <;> rfl)

theorem connStep_preserve {nm : List (Str × Node)} (a : Graph)
    (pc : ParsedConnection) (r : Graph)
    (hP : (∀ i, (mapGet nm i).isSome → (a.getNode i).isSome) ∧
      ∀ c ∈ a.connections,
        (a.getNode c.source.nodeId).isSome ∧
          (a.getNode c.target.nodeId).isSome)
    (hr : (match createConnection pc nm with
      | some c =>
        match a.addConnection c with
        | .ok g2 => Except.ok g2
        | .error e => Except.error e.1
      | none => Except.ok a) = .ok r) :
    (∀ i, (mapGet nm i).isSome → (r.getNode i).isSome) ∧
    ∀ c ∈ r.connections,
      (r.getNode c.source.nodeId).isSome ∧
        (r.getNode c.target.nodeId).isSome := by
  cases hcc : createConnection pc nm with
  | none =>
    rw [hcc] at hr
    cases hr
    exact hP
  | some c =>
    rw [hcc] at hr
    unfold createConnection at hcc
    cases hm1 : mapGet nm pc.source.nodeId with
    | none =>
      rw [hm1] at hcc
      cases hm2 : mapGet nm pc.target.nodeId with
      | none => rw [hm2] at hcc; cases hcc
      | some n2 => rw [hm2] at hcc; cases hcc
    | some n1 =>
      rw [hm1] at hcc
      cases hm2 : mapGet nm pc.target.nodeId with
      | none => rw [hm2] at hcc; cases hcc
      | some n2 =>
        rw [hm2] at hcc
        cases hcc
        have hs1 : (a.getNode pc.source.nodeId).isSome :=
          hP.1 _ (by rw [hm1]; rfl)
        have ht1 : (a.getNode pc.target.nodeId).isSome :=
          hP.1 _ (by rw [hm2]; rfl)
        obtain ⟨sn, hsn⟩ := Option.isSome_iff_exists.mp hs1
        obtain ⟨tn, htn⟩ := Option.isSome_iff_exists.mp ht1
        obtain ⟨g2, hg2, hiso, hmem⟩ :=
          @addConnection_ok a
            { id := pc.id
              type := pc.type
              source := ⟨pc.source.nodeId, pc.source.faceId, none⟩
              target := ⟨pc.target.nodeId, pc.target.faceId, none⟩ }
            sn tn hsn htn
        dsimp only at hr
        rw [hg2] at hr
        cases hr
        refine ⟨fun i hi => by rw [hiso]; exact hP.1 i hi, ?_⟩
        intro d hd
        rcases hmem d hd with hold | ⟨he1, he2⟩
        · obtain ⟨h1, h2⟩ := hP.2 d hold
          exact ⟨by rw [hiso]; exact h1, by rw [hiso]; exact h2⟩
        · constructor
          · rw [hiso, he1]
            exact hs1
          · rw [hiso, he2]
            exact ht1

theorem connStep_total {nm : List (Str × Node)} (a : Graph)
    (pc : ParsedConnection)
    (hP : (∀ i, (mapGet nm i).isSome → (a.getNode i).isSome) ∧
      ∀ c ∈ a.connections,
        (a.getNode c.source.nodeId).isSome ∧
          (a.getNode c.target.nodeId).isSome) :
    ∃ r, (match createConnection pc nm with
      | some c =>
        match a.addConnection c with
        | .ok g2 => Except.ok g2
        | .error e => Except.error e.1
      | none => Except.ok a) = .ok r ∧
      (∀ i, (mapGet nm i).isSome → (r.getNode i).isSome) ∧
      ∀ c ∈ r.connections,
        (r.getNode c.source.nodeId).isSome ∧
          (r.getNode c.target.nodeId).isSome := by
  cases hcc : createConnection pc nm with
  | none => exact ⟨a, rfl, hP⟩
  | some c =>
    have hends : c.source.nodeId = pc.source.nodeId ∧
        c.target.nodeId = pc.target.nodeId ∧
        (mapGet nm pc.source.nodeId).isSome ∧
        (mapGet nm pc.target.nodeId).isSome := by
      unfold createConnection at hcc
      cases hm1 : mapGet nm pc.source.nodeId with
      | none =>
        rw [hm1] at hcc
        cases hm2 : mapGet nm pc.target.nodeId with
        | none => rw [hm2] at hcc; cases hcc
        | some n2 => rw [hm2] at hcc; cases hcc
      | some n1 =>
        rw [hm1] at hcc
        cases hm2 : mapGet nm pc.target.nodeId with
        | none => rw [hm2] at hcc; cases hcc
        | some n2 =>
          rw [hm2] at hcc
          cases hcc
          exact ⟨rfl, rfl, rfl, rfl⟩
    obtain ⟨he1, he2, hm1s, hm2s⟩ := hends
    obtain ⟨sn, hsn⟩ := Option.isSome_iff_exists.mp (hP.1 _ hm1s)
    obtain ⟨tn, htn⟩ := Option.isSome_iff_exists.mp (hP.1 _ hm2s)
    obtain ⟨g2, hg2, hiso, hmem⟩ :=
      addConnection_ok
        (show a.getNode c.source.nodeId = some sn by rw [he1]; exact hsn)
        (show a.getNode c.target.nodeId = some tn by rw [he2]; exact htn)
    refine ⟨g2, by dsimp only; rw [hg2], ?_⟩
    exact connStep_preserve a pc g2 hP (by rw [hcc]; dsimp only; rw [hg2])

theorem shape_comp {a b c : Graph}
    (h1 : b.connections = a.connections ∧
      ∀ i, (b.getNode i).isSome = (a.getNode i).isSome)
    (h2 : c.connections = b.connections ∧
      ∀ i, (c.getNode i).isSome = (b.getNode i).isSome) :
    c.connections = a.connections ∧
    ∀ i, (c.getNode i).isSome = (a.getNode i).isSome :=
  ⟨h2.1.trans h1.1, fun i => (h2.2 i).trans (h1.2 i)⟩

theorem foldl_shape {β : Type} (step : Graph → β → Graph) (l : List β)
    (g0 : Graph)
    (h : ∀ a b, (step a b).connections = a.connections ∧
      ∀ i, ((step a b).getNode i).isSome = (a.getNode i).isSome) :
    (l.foldl step g0).connections = g0.connections ∧
    ∀ i, ((l.foldl step g0).getNode i).isSome = (g0.getNode i).isSome := by
  refine @foldl_preserve _ _
    (fun g' : Graph => g'.connections = g0.connections ∧
      ∀ i, (g'.getNode i).isSome = (g0.getNode i).isSome)
    _ _ ?_ _ ⟨rfl, fun _ => rfl⟩
  intro a b _ hP
  exact ⟨(h a b).1.trans hP.1, fun i => ((h a b).2 i).trans (hP.2 i)⟩

theorem updateNodePos_shape {g : Graph} {j : Str} {p : Vec3} :
    (updateNodePos g j p).connections = g.connections ∧
    ∀ i, ((updateNodePos g j p).getNode i).isSome = (g.getNode i).isSome := by
  refine ⟨rfl, fun i => ?_⟩
  unfold updateNodePos
  rw [getNode_isSome_updateNode (fun n => setPosition_id)]

theorem repulsive_shape {g : Graph} {id1 id2 : Str} {s : ℚ} :
    (applyRepulsiveForce g id1 id2 s).connections = g.connections ∧
    ∀ i, ((applyRepulsiveForce g id1 id2 s).getNode i).isSome =
      (g.getNode i).isSome := by
  unfold applyRepulsiveForce
  cases g.getNode id1 with
  | none => exact ⟨rfl, fun i => rfl⟩
  | some n1 =>
    cases g.getNode id2 with
    | none => exact ⟨rfl, fun i => rfl⟩
    | some n2 =>
      exact shape_comp updateNodePos_shape updateNodePos_shape

theorem attractive_shape {g : Graph} {id1 id2 : Str} {s : ℚ} :
    (applyAttractiveForce g id1 id2 s).connections = g.connections ∧
    ∀ i, ((applyAttractiveForce g id1 id2 s).getNode i).isSome =
      (g.getNode i).isSome := by
  unfold applyAttractiveForce
  cases g.getNode id1 with
  | none => exact ⟨rfl, fun i => rfl⟩
  | some n1 =>
    cases g.getNode id2 with
    | none => exact ⟨rfl, fun i => rfl⟩
    | some n2 =>
      exact shape_comp updateNodePos_shape updateNodePos_shape

theorem forceIteration_shape {g0 : Graph} {ids pinned : List Str} :
    (forceIteration g0 ids pinned).connections = g0.connections ∧
    ∀ i, ((forceIteration g0 ids pinned).getNode i).isSome =
      (g0.getNode i).isSome := by
  simp only [forceIteration]
  refine shape_comp (shape_comp (foldl_shape _ _ _ ?rep)
    (foldl_shape _ _ _ ?attr)) (foldl_shape _ _ _ ?damp)
  case rep =>
    intro a jk
    exact repulsive_shape
  case attr =>
    intro a c
    dsimp only
    cases a.getNode c.source.nodeId with
    | none => exact ⟨rfl, fun i => rfl⟩
    | some sN =>
      cases a.getNode c.target.nodeId with
      | none => exact ⟨rfl, fun i => rfl⟩
      | some tN =>
        dsimp only
        by_cases hcond :
          (!pinned.contains sN.id || !pinned.contains tN.id) = true
        · rw [if_pos hcond]
          exact attractive_shape
        · rw [if_neg hcond]
          exact ⟨rfl, fun i => rfl⟩
  case damp =>
    intro a j
    dsimp only
    cases a.getNode j with
    | none => exact ⟨rfl, fun i => rfl⟩
    | some node => exact updateNodePos_shape

theorem applyPositions_shape {g : Graph} {asg : List (Str × Vec3)} :
    (applyPositions g asg).connections = g.connections ∧
    ∀ i, ((applyPositions g asg).getNode i).isSome = (g.getNode i).isSome :=
  ⟨applyPositions_connections, fun i => getNode_isSome_applyPositions⟩

theorem hierarchical_shape {g : Graph} {pinned : List Str} {cfg : Config} :
    (applyHierarchicalLayout g pinned cfg).connections = g.connections ∧
    ∀ i, ((applyHierarchicalLayout g pinned cfg).getNode i).isSome =
      (g.getNode i).isSome := by
  unfold applyHierarchicalLayout
  refine foldl_shape _ _ _ ?_
  intro a li
  dsimp only
  split
  · exact ⟨rfl, fun _ => rfl⟩
  · exact applyPositions_shape

theorem circular_shape {g : Graph} {pinned : List Str} {cfg : Config} :
    (applyCircularLayout g pinned cfg).connections = g.connections ∧
    ∀ i, ((applyCircularLayout g pinned cfg).getNode i).isSome =
      (g.getNode i).isSome := by
  unfold applyCircularLayout
  dsimp only
  split
  · exact ⟨rfl, fun _ => rfl⟩
  · exact applyPositions_shape

theorem grid_shape {g : Graph} {pinned : List Str} {cfg : Config} :
    (applyGridLayout g pinned cfg).connections = g.connections ∧
    ∀ i, ((applyGridLayout g pinned cfg).getNode i).isSome =
      (g.getNode i).isSome := by
  unfold applyGridLayout
  dsimp only
  split
  · exact ⟨rfl, fun _ => rfl⟩
  · exact applyPositions_shape

theorem forceDirected_shape {g : Graph} {pinned : List Str} {cfg : Config} :
    (applyForceDirectedLayout g pinned cfg).connections = g.connections ∧
    ∀ i, ((applyForceDirectedLayout g pinned cfg).getNode i).isSome =
      (g.getNode i).isSome := by
  unfold applyForceDirectedLayout
  dsimp only
  split
  · exact ⟨rfl, fun _ => rfl⟩
  · refine shape_comp applyPositions_shape (foldl_shape _ _ _ ?_)
    intro a j
    exact forceIteration_shape

theorem applyLayout_shape (g : Graph) (cfg : Config) :
    (applyLayout g cfg).connections = g.connections ∧
    ∀ i, ((applyLayout g cfg).getNode i).isSome = (g.getNode i).isSome := by
  obtain ⟨alg, s⟩ := cfg
  cases alg with
  | hierarchical => exact hierarchical_shape
  | forceDirected => exact forceDirected_shape
  | circular => exact circular_shape
  | grid => exact grid_shape

theorem applyLayout_connOK {g : Graph} {cfg : Config}
    (hok : ∀ c ∈ g.connections,
      (g.getNode c.source.nodeId).isSome ∧
        (g.getNode c.target.nodeId).isSome) :
    ∀ c ∈ (applyLayout g cfg).connections,
      ((applyLayout g cfg).getNode c.source.nodeId).isSome ∧
        ((applyLayout g cfg).getNode c.target.nodeId).isSome := by
  intro c hc
  rw [(applyLayout_shape g cfg).1] at hc
  obtain ⟨h1, h2⟩ := hok c hc
  exact ⟨by rw [(applyLayout_shape g cfg).2]; exact h1,
    by rw [(applyLayout_shape g cfg).2]; exact h2⟩

theorem updateConnectionAnchors_spec {g : Graph}
    (hok : ∀ c ∈ g.connections,
      (g.getNode c.source.nodeId).isSome ∧
        (g.getNode c.target.nodeId).isSome) :
    ∀ c ∈ (updateConnectionAnchors g).connections,
      ((updateConnectionAnchors g).getNode c.source.nodeId).isSome ∧
      ((updateConnectionAnchors g).getNode c.target.nodeId).isSome ∧
      anchorOk (updateConnectionAnchors g) c.source = true ∧
      anchorOk (updateConnectionAnchors g) c.target = true := by
  intro c hc
  have hc2 : c ∈ g.connections.map (fun c =>
      match g.getNode c.source.nodeId, g.getNode c.target.nodeId with
      | some sourceNode, some targetNode =>
        { c with
          source :=
            match c.source.faceId with
            | some fid =>
              match sourceNode.getFace fid with
              | some f => { c.source with anchor := some f.center }
              | none => c.source
            | none =>
              { c.source with anchor := some sourceNode.transform.position }
          target :=
            match c.target.faceId with
            | some fid =>
              match targetNode.getFace fid with
              | some f => { c.target with anchor := some f.center }
              | none => c.target
            | none =>
              { c.target with anchor := some targetNode.transform.position } }
      | _, _ => c) := hc
  obtain ⟨c0, hc0, rfl⟩ := List.mem_map.mp hc2
  obtain ⟨h1, h2⟩ := hok c0 hc0
  obtain ⟨sn, hsn⟩ := Option.isSome_iff_exists.mp h1
  obtain ⟨tn, htn⟩ := Option.isSome_iff_exists.mp h2
  dsimp only
  rw [hsn, htn]
  dsimp only
  refine ⟨?_, ?_, ?_, ?_⟩
  · rw [getNode_updateConnectionAnchors]
    cases hf : c0.source.faceId with
    | none =>
      dsimp only
      rw [hsn]
      rfl
    | some fid =>
      dsimp only
      cases sn.getFace fid <;> (dsimp only; rw [hsn]; rfl)
  · rw [getNode_updateConnectionAnchors]
    cases hf : c0.target.faceId with
    | none =>
      dsimp only
      rw [htn]
      rfl
    | some fid =>
      dsimp only
      cases tn.getFace fid <;> (dsimp only; rw [htn]; rfl)
  · cases hf : c0.source.faceId with
    | none => simp [anchorOk, getNode_updateConnectionAnchors, hsn, hf]
    | some fid =>
      cases hgf : sn.getFace fid with
      | none => simp [anchorOk, getNode_updateConnectionAnchors, hsn, hf, hgf]
      | some f => simp [anchorOk, getNode_updateConnectionAnchors, hsn, hf, hgf]
  · cases hf : c0.target.faceId with
    | none => simp [anchorOk, getNode_updateConnectionAnchors, htn, hf]
    | some fid =>
      cases hgf : tn.getFace fid with
      | none => simp [anchorOk, getNode_updateConnectionAnchors, htn, hf, hgf]
      | some f => simp [anchorOk, getNode_updateConnectionAnchors, htn, hf, hgf]

theorem build_ok_decomp {pg : ParsedGraph} {cfg : Config} {G : Graph}
    (hb : build pg cfg = .ok G) :
    ∃ g3 : Graph,
      G = updateConnectionAnchors (applyLayout g3 cfg) ∧
      ∀ c ∈ g3.connections,
        (g3.getNode c.source.nodeId).isSome ∧
          (g3.getNode c.target.nodeId).isSome := by
  unfold build at hb
  dsimp only at hb
  cases hnp : pg.nodes.foldlM
      (fun (acc : List (Str × Node) × Graph) pn =>
        (createNode pn).map fun node =>
          (mapSet acc.1 pn.id node, acc.2.addNode node))
      ([], { name := pg.title.getD "Untitled Graph".toList
             description := pg.description
             nodes := []
             connections := []
             metadata := pg.metadata }) with
  | error e =>
    rw [hnp] at hb
    rw [except_bindE_error] at hb
    cases hb
  | ok nmg =>
    rw [hnp] at hb
    rw [except_bindE_ok] at hb
    obtain ⟨hconn0, hinv⟩ := nodePhase_inv rfl hnp
    cases hcp : pg.connections.foldlM
        (fun (g : Graph) pc =>
          match createConnection pc nmg.1 with
          | some c =>
            match g.addConnection c with
            | .ok g2 => Except.ok g2
            | .error e => Except.error e.1
          | none => Except.ok g)
        nmg.2 with
    | error e =>
      rw [hcp] at hb
      rw [except_map_error] at hb
      cases hb
    | ok g3 =>
      rw [hcp] at hb
      rw [except_map_ok] at hb
      cases hb
      refine ⟨g3, rfl, ?_⟩
      have h := @foldlM_ok_preserve _ _
        (fun g' : Graph =>
          (∀ i, (mapGet nmg.1 i).isSome → (g'.getNode i).isSome) ∧
          ∀ c ∈ g'.connections,
            (g'.getNode c.source.nodeId).isSome ∧
              (g'.getNode c.target.nodeId).isSome)
        _ _ (fun a pc r _ hP hr => connStep_preserve a pc r hP hr)
        nmg.2 ⟨hinv, fun c hc => by rw [hconn0] at hc; cases hc⟩ g3 hcp
      exact h.2

theorem build_error_msg {pg : ParsedGraph} {cfg : Config} {e : String}
    (hb : build pg cfg = .error e) : e = scaleSplitMsg := by
  unfold build at hb
  dsimp only at hb
  cases hnp : pg.nodes.foldlM
      (fun (acc : List (Str × Node) × Graph) pn =>
        (createNode pn).map fun node =>
          (mapSet acc.1 pn.id node, acc.2.addNode node))
      ([], { name := pg.title.getD "Untitled Graph".toList
             description := pg.description
             nodes := []
             connections := []
             metadata := pg.metadata }) with
  | error e1 =>
    rw [hnp] at hb
    rw [except_bindE_error] at hb
    cases hb
    obtain ⟨a, pn, _, hstep⟩ := foldlM_error_source _ _ _ _ hnp
    cases hc : createNode pn with
    | ok node =>
      rw [hc] at hstep
      simp only [Except.map] at hstep
      cases hstep
    | error e2 =>
      rw [hc] at hstep
      simp only [Except.map] at hstep
      cases hstep
      exact createNode_error hc
  | ok nmg =>
    rw [hnp] at hb
    rw [except_bindE_ok] at hb
    obtain ⟨hconn0, hinv⟩ := nodePhase_inv rfl hnp
    have htot := @foldlM_total _ _
      (fun g' : Graph =>
        (∀ i, (mapGet nmg.1 i).isSome → (g'.getNode i).isSome) ∧
        ∀ c ∈ g'.connections,
          (g'.getNode c.source.nodeId).isSome ∧
            (g'.getNode c.target.nodeId).isSome)
      (fun (g : Graph) pc =>
        match createConnection pc nmg.1 with
        | some c =>
          match g.addConnection c with
          | .ok g2 => Except.ok g2
          | .error e => Except.error e.1
        | none => Except.ok g)
      pg.connections (fun a pc _ hP => connStep_total a pc hP)
      nmg.2 ⟨hinv, fun c hc => by rw [hconn0] at hc; cases hc⟩
    obtain ⟨g3, hg3, _⟩ := htot
    rw [hg3] at hb
    rw [except_map_ok] at hb
    cases hb

/-- C6 (confirmed): after a successful build, every connection's two
endpoints resolve, and each endpoint's anchor is the referenced node's
final post-layout position when no face is named, and the exact centre of
the named face when the face name resolves on that node (`anchorOk`
packages exactly this; an endpoint naming a nonexistent face keeps its
registration-time anchor, a case outside the claim's scope because every
named face of the grammar exists on the geometry that declares it). -/
theorem C6_anchor_consistency (pg : ParsedGraph) (cfg : Config) (G : Graph)
    (hb : build pg cfg = .ok G) :
    ∀ c ∈ G.connections,
      anchorOk G c.source = true ∧ anchorOk G c.target = true := by
  obtain ⟨g3, rfl, hok⟩ := build_ok_decomp hb
  intro c hc
  have h := updateConnectionAnchors_spec (applyLayout_connOK hok) c hc
  exact ⟨h.2.2.1, h.2.2.2⟩

/-- C6 witness: the anchors of the built graph of
`A[Function: f] / B[Function: g] / A@front --> B`. -/
theorem C6_witness :
    anchorOk exC6graph exC6conn.source = true ∧
      anchorOk exC6graph exC6conn.target = true :=
  C6_anchor_consistency exC6pg defaultConfig exC6graph (by rfl) exC6conn
    (by decide)

/-- C7 (confirmed): a parsed connection whose endpoint is missing from the
node map is dropped silently — every connection of a successfully built
graph has both endpoints resolvable — and on `A[Function: f] / A --> Z`
the parser yields 1 node and 1 connection, the build keeps 1 node and 0
connections without raising, and validation reports exactly the one error
naming `Z`. -/
theorem C7_dangling_dropped :
    (∀ (pg : ParsedGraph) (cfg : Config) (G : Graph), build pg cfg = .ok G →
      ∀ c ∈ G.connections,
        (G.getNode c.source.nodeId).isSome ∧
          (G.getNode c.target.nodeId).isSome) ∧
    parsedCounts exC7input = some (1, 1) ∧
    parseBuildCounts exC7input defaultConfig = some (1, 0) ∧
    validate exC7input = (false, [exC7error]) := by
  refine ⟨?_, by decide, by decide, by decide⟩
  intro pg cfg G hb c hc
  obtain ⟨g3, rfl, hok⟩ := build_ok_decomp hb
  have h := updateConnectionAnchors_spec (applyLayout_connOK hok) c hc
  exact ⟨h.1, h.2.1⟩

/-- C7 witness: the general endpoint-resolution part applied to the
concrete build of the pinned two-node graph. -/
theorem C7_witness :
    (exC1graph.getNode exC1conn.source.nodeId).isSome ∧
      (exC1graph.getNode exC1conn.target.nodeId).isSome :=
  C7_dangling_dropped.1 exC1parsed defaultConfig exC1graph (by rfl) exC1conn
    (by decide)

/-- C10 (confirmed): `Graph.addConnection` throws (with the graph
unchanged — the error value carries the input graph itself, the existence
check preceding every mutation) exactly the "source or target node not
found" message whenever either endpoint is missing, and no parse-then-build
run can surface that message: the only error a build can propagate is the
`TypeError` thrown by `createNode` on a non-string `scale` property,
because the builder filters dangling connections before registration. -/
theorem C10_addConnection_guard :
    (∀ (g : Graph) (c : Connection),
      (g.getNode c.source.nodeId).isNone ∨
          (g.getNode c.target.nodeId).isNone →
        g.addConnection c = .error (connNotFoundMsg, g)) ∧
    (∀ (pg : ParsedGraph) (cfg : Config) (e : String),
      build pg cfg = .error e → e ≠ connNotFoundMsg) := by
  constructor
  · intro g c h
    unfold Graph.addConnection
    cases h1 : g.getNode c.source.nodeId with
    | none => cases g.getNode c.target.nodeId <;> rfl
    | some sn =>
      cases h2 : g.getNode c.target.nodeId with
      | none => rfl
      | some tn =>
        exfalso
        rcases h with h | h
        · rw [h1] at h
          simp at h
        · rw [h2] at h
          simp at h
  · intro pg cfg e hb
    rw [build_error_msg hb]
    decide

/-- C10 witness: the guard fires on an empty graph and a dangling
connection, handing back the unchanged graph; and the one message a full
build can raise differs from the guard's message. -/
theorem C10_witness :
    exEmptyGraph.addConnection exConnXY =
      .error (connNotFoundMsg, exEmptyGraph) ∧
    scaleSplitMsg ≠ connNotFoundMsg :=
  ⟨C10_addConnection_guard.1 exEmptyGraph exConnXY (Or.inl (by decide)),
    C10_addConnection_guard.2 exScaleParsed defaultConfig scaleSplitMsg
      (by rfl)⟩

/-- C8 (code bug): face generation for the box class returns only the
front and back faces — the source comment "Add top, bottom, left, right
faces..." is never implemented — so the six named faces the spec promises
do not exist; the produced list of face ids is exactly
`[front, back]` for every position and scale. -/
theorem C8_cube_faces_only_front_back (p s : Vec3) :
    (generateCubeFaces p s).map Face.id =
      ["front".toList, "back".toList] := rfl

/-- C9 (code bug): a multi-line property block whose value is a pure
numeral makes `parseMultiLineProperties` coerce the value to a number and
then call `startsWith` on it, which throws; `parse` propagates the
`TypeError` instead of returning normally with the number stored. -/
theorem C9_numeric_property_value_throws :
    Merfolk.parse exC9input =
      .error "TypeError: parsedValue.startsWith is not a function" := rfl

end ClaimProofs

end AST3D
